import Mathlib

/-!
Verification development for the BookLocalizer translation core
(src/app/translator.py).  The Python functions are shallowly embedded as
executable Lean definitions: Python strings become `String`/`List Char`,
Python dicts become insertion-ordered association lists with Python-dict
operational semantics, the cancellation flag becomes a one-way boolean
schedule over the sequence of flag observations, and the external
translation backend becomes an explicit response function.
-/

namespace BookLocalizer

/-! ### Marker constants (translator.py lines 4-9) -/

def START_MARK : String := "<<<START>>>"
def END_MARK : String := "<<<END>>>"
def GLOSSARY_START : String := "<<<GLOSSARY_START>>>"
def GLOSSARY_END : String := "<<<GLOSSARY_END>>>"

/-! ### Python dict semantics on insertion-ordered association lists.
`dictSet` is `d[k] = v` (overwrite in place, keep position, else append),
`dictUpdate` is `d.update(u)`, `dictSetdefault` is `d.setdefault(k, v)`,
`dictGet?` is `d[k]` lookup, `dictContains` is `k in d`. -/

def dictContains [DecidableEq α] : List (α × β) → α → Bool
  | [], _ => false
  | p :: rest, k => if p.1 = k then true else dictContains rest k

def dictGet? [DecidableEq α] : List (α × β) → α → Option β
  | [], _ => none
  | p :: rest, k => if p.1 = k then some p.2 else dictGet? rest k

def dictSet [DecidableEq α] (d : List (α × β)) (k : α) (v : β) : List (α × β) :=
  if dictContains d k then d.map (fun p => if p.1 = k then (k, v) else p) else d ++ [(k, v)]

def dictUpdate [DecidableEq α] (d u : List (α × β)) : List (α × β) :=
  u.foldl (fun acc p => dictSet acc p.1 p.2) d

def dictSetdefault [DecidableEq α] (d : List (α × β)) (k : α) (v : β) : List (α × β) :=
  if dictContains d k then d else d ++ [(k, v)]

def dictKeys (d : List (α × β)) : List α := d.map Prod.fst

/-! ### Python string helpers -/

/-- Python str.strip on a character list (whitespace trimmed from both ends). -/
def trimL (l : List Char) : List Char :=
  ((l.dropWhile Char.isWhitespace).reverse.dropWhile Char.isWhitespace).reverse

/-- Python str.strip on a string. -/
def pyStrip (s : String) : String := String.mk (trimL s.toList)

/-- Index of the first occurrence of pattern `pat` in `hay` (leftmost match of
the regex-escape of `pat`), `none` when `pat` does not occur. -/
def firstOcc : List Char → List Char → Option Nat
  | [], pat => if pat.isPrefixOf ([] : List Char) then some 0 else none
  | c :: rest, pat =>
    if pat.isPrefixOf (c :: rest) then some 0 else (firstOcc rest pat).map (· + 1)

/-- First occurrence of `pat` in `hay` at an index `≥ k`. -/
def firstOccFrom (hay pat : List Char) (k : Nat) : Option Nat :=
  (firstOcc (hay.drop k) pat).map (· + k)

/-- The group captured by the Python regex `escape(start) + "(.*?)" + escape(stop)`
with re.S: the leftmost occurrence of `start`, then the shortest lazy extension
until the first occurrence of `stop` at or after the end of `start`. -/
def findMarkedL (text start stop : List Char) : Option (List Char) :=
  match firstOcc text start with
  | none => none
  | some i =>
    match firstOccFrom text stop (i + start.length) with
    | none => none
    | some j => some ((text.drop (i + start.length)).take (j - (i + start.length)))

/-- translator.py prune_marked (lines 27-32): text between the markers if the
regex matches, stripped; otherwise the whole text stripped. -/
def pruneMarkedL (text start stop : List Char) : List Char :=
  match findMarkedL text start stop with
  | some m => trimL m
  | none => trimL text

/-- String-level prune_marked. -/
def pruneMarked (text start stop : String) : String :=
  String.mk (pruneMarkedL text.toList start.toList stop.toList)

/-- Whether `pat` occurs as a substring of `hay` (marker presence). -/
def containsSub (hay pat : String) : Bool := (firstOcc hay.toList pat.toList).isSome

/-- Python str.splitlines restricted to the line terminators that can occur
here: LF, CRLF and CR.  A trailing segment is a line only when non-empty. -/
def splitlinesGo : List Char → List Char → List (List Char)
  | acc, [] => if acc.isEmpty then [] else [acc.reverse]
  | acc, '\r' :: '\n' :: rest => acc.reverse :: splitlinesGo [] rest
  | acc, '\r' :: rest => acc.reverse :: splitlinesGo [] rest
  | acc, '\n' :: rest => acc.reverse :: splitlinesGo [] rest
  | acc, c :: rest => splitlinesGo (c :: acc) rest

def splitlinesL (l : List Char) : List (List Char) := splitlinesGo [] l

/-- Python line.split("->", 1) guarded by the `"->" in line` membership test:
`some (before, after)` on the first occurrence, `none` when absent. -/
def splitFirstArrow (line : List Char) : Option (List Char × List Char) :=
  match firstOcc line ['-', '>'] with
  | none => none
  | some i => some (line.take i, line.drop (i + 2))

/-! Python str.lower (CPython 3.11, Unicode 14.0.0), as called at
translator.py line 93.  Per code point it applies the Unicode full
lowercase mapping; the only multi-character mapping is U+0130, and the only
context-dependent one is capital sigma U+03A3, which lowers to the final
form U+03C2 exactly when preceded by a cased character (skipping
case-ignorable ones) and not followed by one.  The tables below are the
interpreter's own data: lowerRuns compresses the nontrivial code-point
mappings into runs (start, count, stride, delta) covering start,
start+stride, ..., start+(count-1)*stride, each mapped by adding delta;
ciRanges and casedRanges are the inclusive code-point ranges of the
Case_Ignorable and (non-ignorable) Cased characters consulted by the
final-sigma rule. -/

def lowerRuns1 : List (Nat × Nat × Nat × Int) :=
  [(65, 26, 1, 32), (192, 23, 1, 32), (216, 7, 1, 32), (256, 24, 2, 1),
  (306, 3, 2, 1), (313, 8, 2, 1), (330, 23, 2, 1), (376, 1, 1, -121),
  (377, 3, 2, 1), (385, 1, 1, 210), (386, 2, 2, 1), (390, 1, 1, 206),
  (391, 1, 1, 1), (393, 2, 1, 205), (395, 1, 1, 1), (398, 1, 1, 79),
  (399, 1, 1, 202), (400, 1, 1, 203), (401, 1, 1, 1), (403, 1, 1, 205),
  (404, 1, 1, 207), (406, 1, 1, 211), (407, 1, 1, 209), (408, 1, 1, 1),
  (412, 1, 1, 211), (413, 1, 1, 213), (415, 1, 1, 214), (416, 3, 2, 1),
  (422, 1, 1, 218), (423, 1, 1, 1), (425, 1, 1, 218), (428, 1, 1, 1),
  (430, 1, 1, 218), (431, 1, 1, 1), (433, 2, 1, 217), (435, 2, 2, 1),
  (439, 1, 1, 219), (440, 1, 1, 1), (444, 1, 1, 1), (452, 1, 1, 2),
  (453, 1, 1, 1), (455, 1, 1, 2), (456, 1, 1, 1), (458, 1, 1, 2),
  (459, 9, 2, 1), (478, 9, 2, 1), (497, 1, 1, 2), (498, 2, 2, 1),
  (502, 1, 1, -97), (503, 1, 1, -56), (504, 20, 2, 1), (544, 1, 1, -130),
  (546, 9, 2, 1), (570, 1, 1, 10795), (571, 1, 1, 1), (573, 1, 1, -163),
  (574, 1, 1, 10792), (577, 1, 1, 1), (579, 1, 1, -195), (580, 1, 1, 69),
  (581, 1, 1, 71), (582, 5, 2, 1), (880, 2, 2, 1), (886, 1, 1, 1),
  (895, 1, 1, 116), (902, 1, 1, 38), (904, 3, 1, 37), (908, 1, 1, 64),
  (910, 2, 1, 63), (913, 17, 1, 32), (932, 8, 1, 32), (975, 1, 1, 8),
  (984, 12, 2, 1), (1012, 1, 1, -60), (1015, 1, 1, 1), (1017, 1, 1, -7),
  (1018, 1, 1, 1), (1021, 3, 1, -130), (1024, 16, 1, 80), (1040, 32, 1, 32),
  (1120, 17, 2, 1), (1162, 27, 2, 1), (1216, 1, 1, 15), (1217, 7, 2, 1),
  (1232, 48, 2, 1), (1329, 38, 1, 48), (4256, 38, 1, 7264), (4295, 1, 1, 7264),
  (4301, 1, 1, 7264), (5024, 80, 1, 38864), (5104, 6, 1, 8), (7312, 43, 1, -3008),
  (7357, 3, 1, -3008), (7680, 75, 2, 1), (7838, 1, 1, -7615), (7840, 48, 2, 1),
  (7944, 8, 1, -8), (7960, 6, 1, -8), (7976, 8, 1, -8), (7992, 8, 1, -8),
  (8008, 6, 1, -8), (8025, 4, 2, -8), (8040, 8, 1, -8), (8072, 8, 1, -8),
  (8088, 8, 1, -8), (8104, 8, 1, -8), (8120, 2, 1, -8), (8122, 2, 1, -74),
  (8124, 1, 1, -9), (8136, 4, 1, -86), (8140, 1, 1, -9), (8152, 2, 1, -8),
  (8154, 2, 1, -100), (8168, 2, 1, -8), (8170, 2, 1, -112), (8172, 1, 1, -7),
  (8184, 2, 1, -128), (8186, 2, 1, -126), (8188, 1, 1, -9), (8486, 1, 1, -7517)]

def lowerRuns2 : List (Nat × Nat × Nat × Int) :=
  [(8490, 1, 1, -8383), (8491, 1, 1, -8262), (8498, 1, 1, 28), (8544, 16, 1, 16),
  (8579, 1, 1, 1), (9398, 26, 1, 26), (11264, 48, 1, 48), (11360, 1, 1, 1),
  (11362, 1, 1, -10743), (11363, 1, 1, -3814), (11364, 1, 1, -10727), (11367, 3, 2, 1),
  (11373, 1, 1, -10780), (11374, 1, 1, -10749), (11375, 1, 1, -10783), (11376, 1, 1, -10782),
  (11378, 1, 1, 1), (11381, 1, 1, 1), (11390, 2, 1, -10815), (11392, 50, 2, 1),
  (11499, 2, 2, 1), (11506, 1, 1, 1), (42560, 23, 2, 1), (42624, 14, 2, 1),
  (42786, 7, 2, 1), (42802, 31, 2, 1), (42873, 2, 2, 1), (42877, 1, 1, -35332),
  (42878, 5, 2, 1), (42891, 1, 1, 1), (42893, 1, 1, -42280), (42896, 2, 2, 1),
  (42902, 10, 2, 1), (42922, 1, 1, -42308), (42923, 1, 1, -42319), (42924, 1, 1, -42315),
  (42925, 1, 1, -42305), (42926, 1, 1, -42308), (42928, 1, 1, -42258), (42929, 1, 1, -42282),
  (42930, 1, 1, -42261), (42931, 1, 1, 928), (42932, 8, 2, 1), (42948, 1, 1, -48),
  (42949, 1, 1, -42307), (42950, 1, 1, -35384), (42951, 2, 2, 1), (42960, 1, 1, 1),
  (42966, 2, 2, 1), (42997, 1, 1, 1), (65313, 26, 1, 32), (66560, 40, 1, 40),
  (66736, 36, 1, 40), (66928, 11, 1, 39), (66940, 15, 1, 39), (66956, 7, 1, 39),
  (66964, 2, 1, 39), (68736, 51, 1, 64), (71840, 32, 1, 32), (93760, 32, 1, 32),
  (125184, 34, 1, 34)]

def lowerRuns : List (Nat × Nat × Nat × Int) :=
  lowerRuns1 ++ lowerRuns2

def ciRanges1 : List (Nat × Nat) :=
  [(39, 39), (46, 46), (58, 58), (94, 94),
  (96, 96), (168, 168), (173, 173), (175, 175),
  (180, 180), (183, 184), (688, 879), (884, 885),
  (890, 890), (900, 901), (903, 903), (1155, 1161),
  (1369, 1369), (1375, 1375), (1425, 1469), (1471, 1471),
  (1473, 1474), (1476, 1477), (1479, 1479), (1524, 1524),
  (1536, 1541), (1552, 1562), (1564, 1564), (1600, 1600),
  (1611, 1631), (1648, 1648), (1750, 1757), (1759, 1768),
  (1770, 1773), (1807, 1807), (1809, 1809), (1840, 1866),
  (1958, 1968), (2027, 2037), (2042, 2042), (2045, 2045),
  (2070, 2093), (2137, 2139), (2184, 2184), (2192, 2193),
  (2200, 2207), (2249, 2306), (2362, 2362), (2364, 2364),
  (2369, 2376), (2381, 2381), (2385, 2391), (2402, 2403),
  (2417, 2417), (2433, 2433), (2492, 2492), (2497, 2500),
  (2509, 2509), (2530, 2531), (2558, 2558), (2561, 2562),
  (2620, 2620), (2625, 2626), (2631, 2632), (2635, 2637),
  (2641, 2641), (2672, 2673), (2677, 2677), (2689, 2690),
  (2748, 2748), (2753, 2757), (2759, 2760), (2765, 2765),
  (2786, 2787), (2810, 2815), (2817, 2817), (2876, 2876),
  (2879, 2879), (2881, 2884), (2893, 2893), (2901, 2902),
  (2914, 2915), (2946, 2946), (3008, 3008), (3021, 3021),
  (3072, 3072), (3076, 3076), (3132, 3132), (3134, 3136),
  (3142, 3144), (3146, 3149), (3157, 3158), (3170, 3171),
  (3201, 3201), (3260, 3260), (3263, 3263), (3270, 3270),
  (3276, 3277), (3298, 3299), (3328, 3329), (3387, 3388),
  (3393, 3396), (3405, 3405), (3426, 3427), (3457, 3457),
  (3530, 3530), (3538, 3540), (3542, 3542), (3633, 3633),
  (3636, 3642), (3654, 3662), (3761, 3761), (3764, 3772),
  (3782, 3782), (3784, 3789), (3864, 3865), (3893, 3893),
  (3895, 3895), (3897, 3897), (3953, 3966), (3968, 3972)]

def ciRanges2 : List (Nat × Nat) :=
  [(3974, 3975), (3981, 3991), (3993, 4028), (4038, 4038),
  (4141, 4144), (4146, 4151), (4153, 4154), (4157, 4158),
  (4184, 4185), (4190, 4192), (4209, 4212), (4226, 4226),
  (4229, 4230), (4237, 4237), (4253, 4253), (4348, 4348),
  (4957, 4959), (5906, 5908), (5938, 5939), (5970, 5971),
  (6002, 6003), (6068, 6069), (6071, 6077), (6086, 6086),
  (6089, 6099), (6103, 6103), (6109, 6109), (6155, 6159),
  (6211, 6211), (6277, 6278), (6313, 6313), (6432, 6434),
  (6439, 6440), (6450, 6450), (6457, 6459), (6679, 6680),
  (6683, 6683), (6742, 6742), (6744, 6750), (6752, 6752),
  (6754, 6754), (6757, 6764), (6771, 6780), (6783, 6783),
  (6823, 6823), (6832, 6862), (6912, 6915), (6964, 6964),
  (6966, 6970), (6972, 6972), (6978, 6978), (7019, 7027),
  (7040, 7041), (7074, 7077), (7080, 7081), (7083, 7085),
  (7142, 7142), (7144, 7145), (7149, 7149), (7151, 7153),
  (7212, 7219), (7222, 7223), (7288, 7293), (7376, 7378),
  (7380, 7392), (7394, 7400), (7405, 7405), (7412, 7412),
  (7416, 7417), (7468, 7530), (7544, 7544), (7579, 7679),
  (8125, 8125), (8127, 8129), (8141, 8143), (8157, 8159),
  (8173, 8175), (8189, 8190), (8203, 8207), (8216, 8217),
  (8228, 8228), (8231, 8231), (8234, 8238), (8288, 8292),
  (8294, 8303), (8305, 8305), (8319, 8319), (8336, 8348),
  (8400, 8432), (11388, 11389), (11503, 11505), (11631, 11631),
  (11647, 11647), (11744, 11775), (11823, 11823), (12293, 12293),
  (12330, 12333), (12337, 12341), (12347, 12347), (12441, 12446),
  (12540, 12542), (40981, 40981), (42232, 42237), (42508, 42508),
  (42607, 42610), (42612, 42621), (42623, 42623), (42652, 42655),
  (42736, 42737), (42752, 42785), (42864, 42864), (42888, 42890),
  (42994, 42996), (43000, 43001), (43010, 43010), (43014, 43014),
  (43019, 43019), (43045, 43046), (43052, 43052), (43204, 43205)]

def ciRanges3 : List (Nat × Nat) :=
  [(43232, 43249), (43263, 43263), (43302, 43309), (43335, 43345),
  (43392, 43394), (43443, 43443), (43446, 43449), (43452, 43453),
  (43471, 43471), (43493, 43494), (43561, 43566), (43569, 43570),
  (43573, 43574), (43587, 43587), (43596, 43596), (43632, 43632),
  (43644, 43644), (43696, 43696), (43698, 43700), (43703, 43704),
  (43710, 43711), (43713, 43713), (43741, 43741), (43756, 43757),
  (43763, 43764), (43766, 43766), (43867, 43871), (43881, 43883),
  (44005, 44005), (44008, 44008), (44013, 44013), (64286, 64286),
  (64434, 64450), (65024, 65039), (65043, 65043), (65056, 65071),
  (65106, 65106), (65109, 65109), (65279, 65279), (65287, 65287),
  (65294, 65294), (65306, 65306), (65342, 65342), (65344, 65344),
  (65392, 65392), (65438, 65439), (65507, 65507), (65529, 65531),
  (66045, 66045), (66272, 66272), (66422, 66426), (67456, 67461),
  (67463, 67504), (67506, 67514), (68097, 68099), (68101, 68102),
  (68108, 68111), (68152, 68154), (68159, 68159), (68325, 68326),
  (68900, 68903), (69291, 69292), (69446, 69456), (69506, 69509),
  (69633, 69633), (69688, 69702), (69744, 69744), (69747, 69748),
  (69759, 69761), (69811, 69814), (69817, 69818), (69821, 69821),
  (69826, 69826), (69837, 69837), (69888, 69890), (69927, 69931),
  (69933, 69940), (70003, 70003), (70016, 70017), (70070, 70078),
  (70089, 70092), (70095, 70095), (70191, 70193), (70196, 70196),
  (70198, 70199), (70206, 70206), (70367, 70367), (70371, 70378),
  (70400, 70401), (70459, 70460), (70464, 70464), (70502, 70508),
  (70512, 70516), (70712, 70719), (70722, 70724), (70726, 70726),
  (70750, 70750), (70835, 70840), (70842, 70842), (70847, 70848),
  (70850, 70851), (71090, 71093), (71100, 71101), (71103, 71104),
  (71132, 71133), (71219, 71226), (71229, 71229), (71231, 71232),
  (71339, 71339), (71341, 71341), (71344, 71349), (71351, 71351),
  (71453, 71455), (71458, 71461), (71463, 71467), (71727, 71735),
  (71737, 71738), (71995, 71996), (71998, 71998), (72003, 72003)]

def ciRanges4 : List (Nat × Nat) :=
  [(72148, 72151), (72154, 72155), (72160, 72160), (72193, 72202),
  (72243, 72248), (72251, 72254), (72263, 72263), (72273, 72278),
  (72281, 72283), (72330, 72342), (72344, 72345), (72752, 72758),
  (72760, 72765), (72767, 72767), (72850, 72871), (72874, 72880),
  (72882, 72883), (72885, 72886), (73009, 73014), (73018, 73018),
  (73020, 73021), (73023, 73029), (73031, 73031), (73104, 73105),
  (73109, 73109), (73111, 73111), (73459, 73460), (78896, 78904),
  (92912, 92916), (92976, 92982), (92992, 92995), (94031, 94031),
  (94095, 94111), (94176, 94177), (94179, 94180), (110576, 110579),
  (110581, 110587), (110589, 110590), (113821, 113822), (113824, 113827),
  (118528, 118573), (118576, 118598), (119143, 119145), (119155, 119170),
  (119173, 119179), (119210, 119213), (119362, 119364), (121344, 121398),
  (121403, 121452), (121461, 121461), (121476, 121476), (121499, 121503),
  (121505, 121519), (122880, 122886), (122888, 122904), (122907, 122913),
  (122915, 122916), (122918, 122922), (123184, 123197), (123566, 123566),
  (123628, 123631), (125136, 125142), (125252, 125259), (127995, 127999),
  (917505, 917505), (917536, 917631), (917760, 917999)]

def ciRanges : List (Nat × Nat) :=
  ciRanges1 ++ ciRanges2 ++ ciRanges3 ++ ciRanges4

def casedRanges1 : List (Nat × Nat) :=
  [(65, 90), (97, 122), (170, 170), (181, 181),
  (186, 186), (192, 214), (216, 246), (248, 442),
  (444, 447), (452, 659), (661, 687), (880, 883),
  (886, 887), (891, 893), (895, 895), (902, 902),
  (904, 906), (908, 908), (910, 929), (931, 1013),
  (1015, 1153), (1162, 1327), (1329, 1366), (1376, 1416),
  (4256, 4293), (4295, 4295), (4301, 4301), (4304, 4346),
  (4349, 4351), (5024, 5109), (5112, 5117), (7296, 7304),
  (7312, 7354), (7357, 7359), (7424, 7467), (7531, 7543),
  (7545, 7578), (7680, 7957), (7960, 7965), (7968, 8005),
  (8008, 8013), (8016, 8023), (8025, 8025), (8027, 8027),
  (8029, 8029), (8031, 8061), (8064, 8116), (8118, 8124),
  (8126, 8126), (8130, 8132), (8134, 8140), (8144, 8147),
  (8150, 8155), (8160, 8172), (8178, 8180), (8182, 8188),
  (8450, 8450), (8455, 8455), (8458, 8467), (8469, 8469),
  (8473, 8477), (8484, 8484), (8486, 8486), (8488, 8488),
  (8490, 8493), (8495, 8500), (8505, 8505), (8508, 8511),
  (8517, 8521), (8526, 8526), (8544, 8575), (8579, 8580),
  (9398, 9449), (11264, 11387), (11390, 11492), (11499, 11502),
  (11506, 11507), (11520, 11557), (11559, 11559), (11565, 11565),
  (42560, 42605), (42624, 42651), (42786, 42863), (42865, 42887),
  (42891, 42894), (42896, 42954), (42960, 42961), (42963, 42963),
  (42965, 42969), (42997, 42998), (43002, 43002), (43824, 43866),
  (43872, 43880), (43888, 43967), (64256, 64262), (64275, 64279),
  (65313, 65338), (65345, 65370), (66560, 66639), (66736, 66771),
  (66776, 66811), (66928, 66938), (66940, 66954), (66956, 66962),
  (66964, 66965), (66967, 66977), (66979, 66993), (66995, 67001),
  (67003, 67004), (68736, 68786), (68800, 68850), (71840, 71903),
  (93760, 93823), (119808, 119892), (119894, 119964), (119966, 119967),
  (119970, 119970), (119973, 119974), (119977, 119980), (119982, 119993)]

def casedRanges2 : List (Nat × Nat) :=
  [(119995, 119995), (119997, 120003), (120005, 120069), (120071, 120074),
  (120077, 120084), (120086, 120092), (120094, 120121), (120123, 120126),
  (120128, 120132), (120134, 120134), (120138, 120144), (120146, 120485),
  (120488, 120512), (120514, 120538), (120540, 120570), (120572, 120596),
  (120598, 120628), (120630, 120654), (120656, 120686), (120688, 120712),
  (120714, 120744), (120746, 120770), (120772, 120779), (122624, 122633),
  (122635, 122654), (125184, 125251), (127280, 127305), (127312, 127337),
  (127344, 127369)]

def casedRanges : List (Nat × Nat) :=
  casedRanges1 ++ casedRanges2

/-- Unicode simple lowercase mapping of one code point (identity when no
run covers it; sigma and U+0130 are handled by the caller). -/
def lowerCharCp (n : Nat) : Nat :=
  match lowerRuns.find? (fun r =>
      decide (r.1 ≤ n) && decide ((n - r.1) % r.2.2.1 = 0)
        && decide ((n - r.1) / r.2.2.1 < r.2.1)) with
  | some r => (Int.ofNat n + r.2.2.2).toNat
  | none => n

def inRanges (rs : List (Nat × Nat)) (n : Nat) : Bool :=
  rs.any (fun r => decide (r.1 ≤ n) && decide (n ≤ r.2))

def isCaseIgnorableCp (n : Nat) : Bool := inRanges ciRanges n

def isCasedCp (n : Nat) : Bool := inRanges casedRanges n

/-- The final-sigma test of CPython's handle_capital_sigma: `before` is the
reversed prefix of the original string up to the sigma, `after` the suffix
following it.  Scan each direction past case-ignorable characters; final
position requires a cased character before and none after. -/
def finalSigma (before after : List Char) : Bool :=
  (match before.dropWhile (fun c => isCaseIgnorableCp c.toNat) with
   | [] => false
   | c :: _ => isCasedCp c.toNat) &&
  (match after.dropWhile (fun c => isCaseIgnorableCp c.toNat) with
   | [] => true
   | c :: _ => !isCasedCp c.toNat)

/-- The character loop of str.lower: `before` accumulates the original
characters already passed, in reverse, as sigma context. -/
def pyLowerGo (before : List Char) : List Char → List Char
  | [] => []
  | c :: rest =>
    (if c.toNat = 0x3A3 then
      [if finalSigma before rest then Char.ofNat 0x3C2 else Char.ofNat 0x3C3]
     else if c.toNat = 0x130 then [Char.ofNat 0x69, Char.ofNat 0x307]
     else [Char.ofNat (lowerCharCp c.toNat)]) ++ pyLowerGo (c :: before) rest

/-- Python str.lower on a character list. -/
def pyLowerL (l : List Char) : List Char := pyLowerGo [] l

/-- Python str.isascii: every code point below 128. -/
def isAsciiL (l : List Char) : Bool := l.all (fun c => c.toNat ≤ 127)

/-! ### translator.py split_sentences (lines 44-71) -/

def isBoundaryChar (c : Char) : Bool := c == '.' || c == '!' || c == '?'

/-- The character scan of split_sentences: `prev` is the previously scanned
character (text[i-1]), `buf` the accumulation buffer; a boundary character
that is immediately followed by another boundary character, or a dot between
two digits, does not close the sentence. -/
def splitSentencesGo : Option Char → List Char → List Char → List (List Char)
  | _, buf, [] => if trimL buf = [] then [] else [trimL buf]
  | prev, buf, c :: rest =>
    if isBoundaryChar c then
      if (rest.head?.map isBoundaryChar).getD false then
        splitSentencesGo (some c) (buf ++ [c]) rest
      else if c == '.' && (prev.map Char.isDigit).getD false
          && (rest.head?.map Char.isDigit).getD false then
        splitSentencesGo (some c) (buf ++ [c]) rest
      else
        trimL (buf ++ [c]) :: splitSentencesGo (some c) [] rest
    else
      splitSentencesGo (some c) (buf ++ [c]) rest

def splitSentences (text : String) : List String :=
  (splitSentencesGo none [] text.toList).map String.mk

/-! ### translator.py parse_translation_and_glossary (lines 74-102) -/

/-- Processing of one line of the glossary block (lines 89-101).  The default
character supplied to headD is never used: the branch that reads it has
already established that src is non-empty. -/
def processGlossLine (glossary : List (String × String)) (upd : List (String × String))
    (line : List Char) : List (String × String) :=
  match splitFirstArrow line with
  | none => upd
  | some (a, b) =>
    let src := trimL a
    let dst := trimL b
    if src = [] ∨ dst = [] then upd
    else if pyLowerL src = pyLowerL dst then upd
    else if dictContains glossary (String.mk src) then upd
    else if src.length ≤ 1 then upd
    else if !((src.headD 'a').isUpper || !isAsciiL src) then upd
    else dictSet upd (String.mk src) (String.mk dst)

/-- translator.py parse_translation_and_glossary: translation between the
configurable markers (fallback: whole stripped text), glossary updates parsed
line by line from the block between the fixed glossary markers. -/
def parseTranslationAndGlossary (text : String) (glossary : List (String × String))
    (startMark stopMark : String) : String × List (String × String) :=
  let translation := pruneMarked text startMark stopMark
  let updates :=
    match findMarkedL text.toList GLOSSARY_START.toList GLOSSARY_END.toList with
    | none => []
    | some block => (splitlinesL block).foldl (processGlossLine glossary) []
  (translation, updates)

/-! ### translator.py apply_glossary (lines 35-41) -/

/-- Python str.replace for a non-empty pattern p :: ps: all non-overlapping
occurrences, scanned left to right. -/
def replaceGo (p : Char) (ps rep : List Char) : List Char → List Char
  | [] => []
  | c :: rest =>
    if (p :: ps).isPrefixOf (c :: rest) then
      rep ++ replaceGo p ps rep (rest.drop ps.length)
    else
      c :: replaceGo p ps rep rest
termination_by l => l.length
decreasing_by
  · simp only [List.length_drop, List.length_cons]
    omega
  · simp only [List.length_cons]
    omega

/-- Python str.replace including the empty-pattern case, where CPython
inserts the replacement before every character and at the end. -/
def replaceL (s pat rep : List Char) : List Char :=
  match pat with
  | [] => rep ++ s.foldr (fun c acc => c :: (rep ++ acc)) []
  | p :: ps => replaceGo p ps rep s

/-- translator.py apply_glossary: sequential str.replace over the glossary
entries in insertion order (an empty glossary leaves the text unchanged). -/
def applyGlossary (text : String) (glossary : List (String × String)) : String :=
  glossary.foldl (fun t p => String.mk (replaceL t.toList p.1.toList p.2.toList)) text

/-- The substitution re.sub applied at translator.py line 381: remove one
leading occurrence of a bracketed decimal index followed by optional
whitespace (regex anchored at the start of the string). -/
def stripIndexTag (l : List Char) : List Char :=
  match l with
  | '[' :: rest =>
    let ds := rest.takeWhile Char.isDigit
    match ds, rest.drop ds.length with
    | _ :: _, ']' :: rest2 => rest2.dropWhile Char.isWhitespace
    | _, _ => l
  | _ => l

/-! ### The windowed translation pipeline (translator.py lines 191-396)

The external backend is modelled as a function from the global request
counter (so a stateful server may answer differently on every HTTP call),
the glossary embedded in the prompt, and the sentence text, to the raw
response text; the prompt template itself only adds fixed text around these
inputs.  Streaming responses are modelled as arriving in a single delta, so
the token callback fires once per sentence with the decodable translation
prune_marked from the full raw buffer, which is the same string that
parse_translation_and_glossary returns as the cleaned translation.  The
cancellation flag is a one-way boolean: `cancelSet cutoff k` is what the
k-th evaluation of cancel_event.is_set() observes.  pause_event is absent
(None) and progress_callback, which only receives fractions, is omitted. -/

abbrev Glossary := List (String × String)

abbrev Backend := Nat → Glossary → String → String

/-- Value of the k-th observation of the cancellation flag; the flag is set
from observation `m` on when `cutoff = some m`, and never when `none`. -/
def cancelSet (cutoff : Option Nat) (k : Nat) : Bool :=
  match cutoff with
  | none => false
  | some m => decide (m ≤ k)

/-- Accumulator of translate_with_ollama (translator.py lines 191-274):
outputs, new_terms and raw_outputs, plus the trace of token-callback
invocations (local sentence index, decoded text) and the global counters of
flag observations and backend requests. -/
structure OllamaAcc where
  outputs : List String
  newTerms : List (String × String)
  rawOutputs : List String
  callLog : List (Nat × String)
  checks : Nat
  reqs : Nat
deriving DecidableEq

/-- The per-sentence loop of translate_with_ollama: check the cancellation
flag (break on set), issue the backend request, parse the response, invoke
the token callback with the local index, append the cleaned and raw outputs
and dict-update the running new_terms. -/
def ollamaGo (f : Backend) (g : Glossary) (cutoff : Option Nat)
    (startMark stopMark : String) : List String → Nat → OllamaAcc → OllamaAcc
  | [], _, acc => acc
  | s :: rest, idx, acc =>
    if cancelSet cutoff acc.checks then { acc with checks := acc.checks + 1 }
    else
      let raw := f acc.reqs g s
      let pr := parseTranslationAndGlossary raw g startMark stopMark
      ollamaGo f g cutoff startMark stopMark rest (idx + 1)
        { outputs := acc.outputs ++ [pr.1]
          newTerms := dictUpdate acc.newTerms pr.2
          rawOutputs := acc.rawOutputs ++ [raw]
          callLog := acc.callLog ++ [(idx, pr.1)]
          checks := acc.checks + 1
          reqs := acc.reqs + 1 }

/-- State of translate_with_context (translator.py lines 325-396): the two
result maps keyed by absolute sentence index, the running update set, the
trace of caller-level token-callback invocations (absolute index, text) and
the global observation/request counters. -/
structure CtxState where
  translated : List (Nat × String)
  rawMap : List (Nat × String)
  allUpdates : List (String × String)
  tokenLog : List (Nat × String)
  checks : Nat
  reqs : Nat
deriving DecidableEq

def initCtxState : CtxState :=
  { translated := [], rawMap := [], allUpdates := [], tokenLog := [], checks := 0, reqs := 0 }

/-- Python f-string tag: `[index] sentence`. -/
def taggedSentence (i : Nat) (s : String) : String :=
  "[" ++ toString i ++ "] " ++ s

/-- The comprehension `[f"[{start + i}] {s}" for i, s in enumerate(slice)]`,
with `k` the running value of the enumerate counter. -/
def enumTagGo (base : Nat) : Nat → List String → List String
  | _, [] => []
  | k, t :: rest => taggedSentence (base + k) t :: enumTagGo base (k + 1) rest

/-- The loop `for idx, (out, raw) in enumerate(zip(outs, raws))` of
translate_with_context (lines 379-384): strip the leading index tag from the
output, strip whitespace, apply the glossary, and setdefault both result
maps at the absolute index `start + idx`. -/
def writeResults (g : Glossary) (start : Nat) :
    Nat → List (String × String) → List (Nat × String) → List (Nat × String) →
    List (Nat × String) × List (Nat × String)
  | _, [], tr, rm => (tr, rm)
  | idx, (out, raw) :: rest, tr, rm =>
    let sentId := start + idx
    let cleaned := applyGlossary (String.mk (trimL (stripIndexTag out.toList))) g
    writeResults g start (idx + 1) rest
      (dictSetdefault tr sentId cleaned) (dictSetdefault rm sentId raw)

/-- One iteration body of the window loop (lines 363-389): tag the window's
slice with absolute indices, run the backend batch, write the outputs into
the result maps first-come, dict-update the running update set (a no-op for
an empty update dict, matching the `if updates:` guard), and extend the
caller-level callback trace with the window base added to each local index. -/
def processWindow (f : Backend) (g : Glossary) (cutoff : Option Nat)
    (sentences : List String) (window : Nat) (start : Nat) (st : CtxState) : CtxState :=
  let slice := (sentences.drop start).take window
  let windowSents := enumTagGo start 0 slice
  let acc := ollamaGo f g cutoff START_MARK END_MARK windowSents 0
    { outputs := [], newTerms := [], rawOutputs := [], callLog := [],
      checks := st.checks, reqs := st.reqs }
  let maps := writeResults g start 0 (acc.outputs.zip acc.rawOutputs) st.translated st.rawMap
  { translated := maps.1
    rawMap := maps.2
    allUpdates := dictUpdate st.allUpdates acc.newTerms
    tokenLog := st.tokenLog ++ acc.callLog.map (fun p => (start + p.1, p.2))
    checks := acc.checks
    reqs := acc.reqs }

/-- The window loop of translate_with_context over the precomputed list of
window start offsets: check the cancellation flag before each window (break
on set), otherwise process the window and continue. -/
def contextGo (f : Backend) (g : Glossary) (cutoff : Option Nat)
    (sentences : List String) (window : Nat) : List Nat → CtxState → CtxState
  | [], st => st
  | start :: rest, st =>
    if cancelSet cutoff st.checks then { st with checks := st.checks + 1 }
    else
      contextGo f g cutoff sentences window rest
        (processWindow f g cutoff sentences window start
          { st with checks := st.checks + 1 })

/-- Python range(0, total, stepSize) for stepSize ≥ 1: all multiples of
step below total, in increasing order. -/
def windowStarts (total stepSize : Nat) : List Nat :=
  (List.range ((total + stepSize - 1) / stepSize)).map (fun k => k * stepSize)

/-- The final comprehension `[m[i] for i in range(n)]` over a result map:
`none` models the KeyError raised when some index is missing. -/
def buildList (d : List (Nat × String)) : List Nat → Option (List String)
  | [] => some []
  | i :: rest =>
    match dictGet? d i with
    | none => none
    | some v => (buildList d rest).map (fun l => v :: l)

/-- translator.py translate_with_context (lines 325-396), ollama backend.
The first component is `some (translations, all_updates, raw_list)` on
normal return and `none` when the final assembly raises KeyError; the second
component is the trace of caller-level token-callback invocations. -/
def translateWithContext (f : Backend) (sentences : List String)
    (window overlap : Nat) (g : Glossary) (cutoff : Option Nat) :
    Option (List String × List (String × String) × List String) × List (Nat × String) :=
  if sentences.isEmpty then (some ([], [], []), [])
  else
    let stepSize := max 1 (window - overlap)
    let st := contextGo f g cutoff sentences window
      (windowStarts sentences.length stepSize) initCtxState
    match buildList st.translated (List.range sentences.length) with
    | none => (none, st.tokenLog)
    | some ts =>
      match buildList st.rawMap (List.range sentences.length) with
      | none => (none, st.tokenLog)
      | some rs => (some (ts, st.allUpdates, rs), st.tokenLog)

/-- A backend whose response is a function of the prompt only, i.e. one
response per (glossary, sentence) pair, independent of the request counter. -/
def liftBackend (f0 : Glossary → String → String) : Backend := fun _ => f0

/-- Raw response the deterministic backend `f0` gives for the absolute
sentence index `i`: tagged with the index, prompted with the glossary. -/
def detRaw (f0 : Glossary → String → String) (g : Glossary)
    (sentences : List String) (i : Nat) : String :=
  f0 g (taggedSentence i (sentences.getD i ""))

/-- Cleaned translation for index `i` as parse_translation_and_glossary
extracts it from the raw response. -/
def detCleaned (f0 : Glossary → String → String) (g : Glossary)
    (sentences : List String) (i : Nat) : String :=
  (parseTranslationAndGlossary (detRaw f0 g sentences i) g START_MARK END_MARK).1

/-- Final pipeline output for index `i`: the cleaned translation with the
leading index tag substituted away, stripped, and the glossary applied. -/
def detFinal (f0 : Glossary → String → String) (g : Glossary)
    (sentences : List String) (i : Nat) : String :=
  applyGlossary (String.mk (trimL (stripIndexTag (detCleaned f0 g sentences i).toList))) g

/-- Cleaned output the deterministic backend `f0` produces for one prompt
sentence `w`: the parsed translation of its raw response. -/
def outFn (f0 : Glossary → String → String) (g : Glossary) (w : String) : String :=
  (parseTranslationAndGlossary (f0 g w) g START_MARK END_MARK).1

/-- Trace of token-callback invocations for a batch starting at local index
`idx`: one invocation per sentence carrying the index and the decoded
text. -/
def tagLog (cf : String → String) : Nat → List String → List (Nat × String)
  | _, [] => []
  | idx, w :: rest => (idx, cf w) :: tagLog cf (idx + 1) rest

/-! ### Concrete backends used in counterexamples and witnesses -/

/-- A fixed well-formed backend response. -/
def cbConst : Backend := fun _ _ _ => "<<<START>>>x<<<END>>>"

/-- A backend that reports the request counter, so repeated requests for the
same sentence are observably different calls. -/
def cbCounter : Backend := fun req _ s => toString req ++ "|" ++ s

/-- A backend that reports a fresh glossary pair Xx -> Y for the first
sentence and the conflicting pair Xx -> Z for every other sentence. -/
def cbConflict : Backend := fun _ _ s =>
  if s = taggedSentence 0 "a" then
    "<<<START>>>t0<<<END>>>\n<<<GLOSSARY_START>>>\nXx -> Y\n<<<GLOSSARY_END>>>"
  else
    "<<<START>>>t1<<<END>>>\n<<<GLOSSARY_START>>>\nXx -> Z\n<<<GLOSSARY_END>>>"

/-- A backend that answers "seen" whenever the glossary embedded in its
prompt contains the key Xx, and otherwise answers "unseen" while reporting
the new pair Xx -> Y. -/
def cbProbe : Backend := fun _ g _ =>
  if dictContains g "Xx" then "<<<START>>>seen<<<END>>>"
  else "<<<START>>>unseen<<<END>>>\n<<<GLOSSARY_START>>>\nXx -> Y\n<<<GLOSSARY_END>>>"

/-- A backend that consults the glossary for a key no run in the witness
ever produces; on the empty glossary it behaves like the plain backend
`cbPlain`. -/
def cbProbeZz : Backend := fun _ g _ =>
  if dictContains g "Zz" then "A" else "B"

/-- The constant plain backend used to compare against cbProbeZz. -/
def cbPlain : Backend := fun _ _ _ => "B"

/-- A deterministic per-sentence backend with a fixed well-formed reply. -/
def cbDet : Glossary → String → String := fun _ _ => "<<<START>>>r<<<END>>>"

/-- The disjunction of rejection conditions applied to a glossary-block
line already split at its first arrow (translator.py lines 93-100), with
src and dst the trimmed halves: one of the sides empty, case-insensitive
equality of the sides, src already a key of the existing glossary, src of
length at most one, or src ASCII with a non-uppercase first character. -/
def lineRejected (glossary : List (String × String)) (a b : List Char) : Bool :=
  let src := trimL a
  let dst := trimL b
  decide (src = []) || decide (dst = []) || decide (pyLowerL src = pyLowerL dst) ||
    dictContains glossary (String.mk src) || decide (src.length ≤ 1) ||
    (isAsciiL src && !(src.headD 'a').isUpper)

/-! ### Helper lemmas: association lists with Python dict semantics -/

theorem dictContains_eq_false_iff [DecidableEq α] (d : List (α × β)) (k : α) :
    dictContains d k = false ↔ dictGet? d k = none := by
  induction d with
  | nil => simp [dictContains, dictGet?]
  | cons p rest ih =>
    by_cases h : p.1 = k <;> simp [dictContains, dictGet?, h, ih]

theorem dictGet?_append [DecidableEq α] (d e : List (α × β)) (k : α) :
    dictGet? (d ++ e) k =
      match dictGet? d k with
      | some v => some v
      | none => dictGet? e k := by
  induction d with
  | nil => simp [dictGet?]
  | cons p rest ih =>
    by_cases h : p.1 = k <;> simp [dictGet?, h, ih]

theorem dictContains_append [DecidableEq α] (d e : List (α × β)) (k : α) :
    dictContains (d ++ e) k = (dictContains d k || dictContains e k) := by
  induction d with
  | nil => simp [dictContains]
  | cons p rest ih =>
    by_cases h : p.1 = k <;> simp [dictContains, h, ih]

theorem dictGet?_map_set_ne [DecidableEq α] (d : List (α × β)) (a : α) (b : β) (k : α)
    (h : a ≠ k) :
    dictGet? (d.map (fun p => if p.1 = a then (a, b) else p)) k = dictGet? d k := by
  have hka : ¬k = a := fun hh => h hh.symm
  induction d with
  | nil => simp [dictGet?]
  | cons p rest ih =>
    by_cases hp : p.1 = a
    · simp [dictGet?, hp, h, hka, ih]
    · by_cases hk : p.1 = k <;> simp [dictGet?, hp, hk, hka, ih]

theorem dictGet?_map_set_eq [DecidableEq α] (d : List (α × β)) (a : α) (b : β)
    (h : dictContains d a = true) :
    dictGet? (d.map (fun p => if p.1 = a then (a, b) else p)) a = some b := by
  induction d with
  | nil => simp [dictContains] at h
  | cons p rest ih =>
    by_cases hp : p.1 = a
    · simp [dictGet?, hp]
    · simp [dictContains, hp] at h
      simp [dictGet?, hp, ih h]

theorem dictGet?_dictSet [DecidableEq α] (d : List (α × β)) (a : α) (b : β) (k : α) :
    dictGet? (dictSet d a b) k = if a = k then some b else dictGet? d k := by
  unfold dictSet
  by_cases hc : dictContains d a = true
  · rw [if_pos hc]
    by_cases hk : a = k
    · subst hk
      rw [if_pos rfl, dictGet?_map_set_eq d a b hc]
    · rw [if_neg hk, dictGet?_map_set_ne d a b k hk]
  · rw [if_neg hc]
    have hn : dictGet? d a = none :=
      (dictContains_eq_false_iff d a).mp (by simpa using hc)
    rw [dictGet?_append]
    by_cases hk : a = k
    · subst hk
      rw [hn, if_pos rfl]
      simp [dictGet?]
    · rw [if_neg hk]
      cases hv : dictGet? d k with
      | none => simp [dictGet?, hk]
      | some v => simp

theorem dictGet?_dictUpdate [DecidableEq α] (u d : List (α × β)) (k : α) :
    dictGet? (dictUpdate d u) k =
      match dictGet? u.reverse k with
      | some v => some v
      | none => dictGet? d k := by
  induction u generalizing d with
  | nil => simp [dictUpdate, dictGet?]
  | cons p rest ih =>
    have step : dictUpdate d (p :: rest) = dictUpdate (dictSet d p.1 p.2) rest := by
      simp [dictUpdate]
    rw [step, ih, List.reverse_cons, dictGet?_append]
    cases hv : dictGet? rest.reverse k with
    | some v => simp
    | none =>
      by_cases hk : p.1 = k
      · subst hk
        simp [dictGet?, dictGet?_dictSet]
      · simp [dictGet?, hk, dictGet?_dictSet, Ne.symm hk]

theorem dictContains_setdefault [DecidableEq α] (d : List (α × β)) (a : α) (b : β) (k : α) :
    dictContains (dictSetdefault d a b) k = (dictContains d k || decide (k = a)) := by
  unfold dictSetdefault
  by_cases hc : dictContains d a = true
  · rw [if_pos hc]
    by_cases hk : k = a
    · subst hk
      simp [hc]
    · simp [hk]
  · rw [if_neg hc, dictContains_append]
    have he : dictContains [(a, b)] k = decide (k = a) := by
      by_cases hk : a = k
      · subst hk
        simp [dictContains]
      · have hka : ¬k = a := fun hh => hk hh.symm
        simp [dictContains, hk, hka]
    rw [he]

theorem dictGet?_setdefault_of_contains [DecidableEq α] (d : List (α × β)) (a : α) (b : β)
    (k : α) (h : dictContains d k = true) :
    dictGet? (dictSetdefault d a b) k = dictGet? d k := by
  unfold dictSetdefault
  by_cases hc : dictContains d a = true
  · simp [hc]
  · rw [if_neg (by simpa using hc), dictGet?_append]
    cases hv : dictGet? d k with
    | some v => simp
    | none =>
      exact absurd ((dictContains_eq_false_iff d k).mpr hv) (by simp [h])

theorem dictGet?_setdefault_new [DecidableEq α] (d : List (α × β)) (a : α) (b : β)
    (h : dictContains d a = false) :
    dictGet? (dictSetdefault d a b) a = some b := by
  unfold dictSetdefault
  rw [if_neg (by simp [h]), dictGet?_append,
    (dictContains_eq_false_iff d a).mp h]
  simp [dictGet?]

theorem mem_setdefault [DecidableEq α] (d : List (α × β)) (a : α) (b : β) (p : α × β)
    (h : p ∈ dictSetdefault d a b) : p ∈ d ∨ p = (a, b) := by
  unfold dictSetdefault at h
  by_cases hc : dictContains d a = true
  · rw [if_pos hc] at h
    exact Or.inl h
  · rw [if_neg (by simpa using hc)] at h
    rcases List.mem_append.mp h with h | h
    · exact Or.inl h
    · simp at h
      exact Or.inr (by simp [h])

theorem mem_keys_iff_contains [DecidableEq α] (d : List (α × β)) (k : α) :
    k ∈ dictKeys d ↔ dictContains d k = true := by
  induction d with
  | nil => simp [dictKeys, dictContains]
  | cons p rest ih =>
    simp only [dictKeys, List.map_cons, List.mem_cons, dictContains]
    by_cases h : p.1 = k
    · simp [h, eq_comm]
    · rw [if_neg h]
      constructor
      · intro hh
        rcases hh with hh | hh
        · exact absurd hh.symm h
        · exact ih.mp hh
      · intro hh
        exact Or.inr (ih.mpr hh)

theorem keys_setdefault_nodup [DecidableEq α] (d : List (α × β)) (a : α) (b : β)
    (h : (dictKeys d).Nodup) : (dictKeys (dictSetdefault d a b)).Nodup := by
  unfold dictSetdefault
  by_cases hc : dictContains d a = true
  · simpa [hc]
  · rw [if_neg (by simpa using hc)]
    have : dictKeys (d ++ [(a, b)]) = dictKeys d ++ [a] := by
      simp [dictKeys]
    rw [this]
    refine List.Nodup.append h (by simp) ?_
    intro x hx hx'
    have hxa : x = a := by simpa using hx'
    rw [hxa] at hx
    exact absurd ((mem_keys_iff_contains d a).mp hx) (by simp [hc])

/-! ### Helper lemmas: substring search and trimming -/

theorem firstOcc_eq_none_iff (l pat : List Char) :
    firstOcc l pat = none ↔ ∀ i, pat.isPrefixOf (l.drop i) = false := by
  induction l with
  | nil =>
    constructor
    · intro hh i
      cases h : pat.isPrefixOf ([] : List Char) with
      | false => rw [List.drop_nil]; exact h
      | true =>
        rw [firstOcc, if_pos h] at hh
        exact absurd hh (by simp)
    · intro hh
      have h0 : pat.isPrefixOf ([] : List Char) = false := hh 0
      rw [firstOcc, if_neg (by simp [h0])]
  | cons c rest ih =>
    constructor
    · intro hh i
      have h : pat.isPrefixOf (c :: rest) = false := by
        cases h : pat.isPrefixOf (c :: rest) with
        | false => rfl
        | true =>
          rw [firstOcc, if_pos h] at hh
          exact absurd hh (by simp)
      have hn : firstOcc rest pat = none := by
        rw [firstOcc, if_neg (by simp [h])] at hh
        cases hv : firstOcc rest pat with
        | none => rfl
        | some j =>
          rw [hv] at hh
          exact absurd hh (by simp)
      cases i with
      | zero => exact h
      | succ i => exact ih.mp hn i
    · intro hh
      have h : pat.isPrefixOf (c :: rest) = false := hh 0
      have hn : firstOcc rest pat = none := ih.mpr (fun i => hh (i + 1))
      rw [firstOcc, if_neg (by simp [h]), hn]
      rfl

theorem firstOcc_drop_eq_none (l pat : List Char) (k : Nat)
    (h : firstOcc l pat = none) : firstOcc (l.drop k) pat = none := by
  rw [firstOcc_eq_none_iff] at h ⊢
  intro i
  rw [List.drop_drop]
  exact h (k + i)

theorem all_of_dropWhile (p : Char → Bool) (l : List Char)
    (h : ∀ c ∈ l.dropWhile p, p c = true) : ∀ c ∈ l, p c = true := by
  induction l with
  | nil => simp
  | cons a rest ih =>
    by_cases ha : p a = true
    · rw [List.dropWhile_cons_of_pos ha] at h
      intro c hc
      rcases List.mem_cons.mp hc with hc | hc
      · subst hc; exact ha
      · exact ih h c hc
    · rw [List.dropWhile_cons_of_neg ha] at h
      exact h

theorem trimL_eq_nil_all_ws (l : List Char) (h : trimL l = []) :
    ∀ c ∈ l, c.isWhitespace = true := by
  unfold trimL at h
  have h1 : (l.dropWhile Char.isWhitespace).reverse.dropWhile Char.isWhitespace = [] := by
    have := congrArg List.reverse h
    simpa using this
  have h2 : ∀ c ∈ (l.dropWhile Char.isWhitespace).reverse, c.isWhitespace = true :=
    all_of_dropWhile _ _ (by rw [h1]; simp)
  have h3 : ∀ c ∈ l.dropWhile Char.isWhitespace, c.isWhitespace = true := by
    intro c hc
    exact h2 c (by simpa using hc)
  exact all_of_dropWhile _ _ h3

theorem trimL_ne_nil (l : List Char) (c : Char) (hc : c ∈ l)
    (hw : c.isWhitespace = false) : trimL l ≠ [] := by
  intro h
  have := trimL_eq_nil_all_ws l h c hc
  rw [hw] at this
  exact absurd this (by simp)

theorem buildList_eq_some (d : List (Nat × String)) (val : Nat → String)
    (idxs : List Nat) (h : ∀ i ∈ idxs, dictGet? d i = some (val i)) :
    buildList d idxs = some (idxs.map val) := by
  induction idxs with
  | nil => simp [buildList]
  | cons i rest ih =>
    have hi : dictGet? d i = some (val i) := h i (by simp)
    simp [buildList, hi, ih (fun j hj => h j (by simp [hj]))]

/-! ### Helper lemmas: window start offsets -/

theorem lt_ceilDiv_iff (total stepSize k : Nat) (h : 1 ≤ stepSize) :
    k < (total + stepSize - 1) / stepSize ↔ k * stepSize < total := by
  rw [Nat.lt_iff_add_one_le, Nat.le_div_iff_mul_le (by omega : 0 < stepSize)]
  have he : (k + 1) * stepSize = k * stepSize + stepSize := by ring
  rw [he]
  omega

theorem mem_windowStarts (total stepSize s : Nat) (h : 1 ≤ stepSize) :
    s ∈ windowStarts total stepSize ↔ ∃ k, s = k * stepSize ∧ s < total := by
  unfold windowStarts
  simp only [List.mem_map, List.mem_range]
  constructor
  · rintro ⟨k, hk, rfl⟩
    exact ⟨k, rfl, (lt_ceilDiv_iff total stepSize k h).mp hk⟩
  · rintro ⟨k, rfl, hlt⟩
    exact ⟨k, (lt_ceilDiv_iff total stepSize k h).mpr hlt, rfl⟩

theorem windowStarts_cover (total w o i : Nat) (ho : o < w) (hi : i < total) :
    ∃ s ∈ windowStarts total (max 1 (w - o)), s ≤ i ∧ i < s + w := by
  have h1 : 1 ≤ w - o := by omega
  have hstep : max 1 (w - o) = w - o := Nat.max_eq_right h1
  have hst : 1 ≤ max 1 (w - o) := le_max_left _ _
  have hstw : max 1 (w - o) ≤ w := by rw [hstep]; omega
  refine ⟨(i / max 1 (w - o)) * max 1 (w - o), ?_, ?_, ?_⟩
  · rw [mem_windowStarts total _ _ hst]
    exact ⟨i / max 1 (w - o), rfl,
      lt_of_le_of_lt (Nat.div_mul_le_self i (max 1 (w - o))) hi⟩
  · exact Nat.div_mul_le_self i (max 1 (w - o))
  · have hdm := Nat.div_add_mod i (max 1 (w - o))
    have hmod : i % max 1 (w - o) < max 1 (w - o) := Nat.mod_lt _ (by omega)
    have hcomm : (i / max 1 (w - o)) * max 1 (w - o)
        = max 1 (w - o) * (i / max 1 (w - o)) := Nat.mul_comm _ _
    omega

/-! ### Helper lemmas: sentence splitting -/

theorem boundary_not_ws (c : Char) (h : isBoundaryChar c = true) :
    c.isWhitespace = false := by
  simp only [isBoundaryChar, Bool.or_eq_true, beq_iff_eq] at h
  rcases h with (h | h) | h <;> subst h <;> decide

theorem nil_not_mem_splitGo (rest : List Char) :
    ∀ (prev : Option Char) (buf : List Char), [] ∉ splitSentencesGo prev buf rest := by
  induction rest with
  | nil =>
    intro prev buf
    simp only [splitSentencesGo]
    by_cases h : trimL buf = []
    · simp [h]
    · simp only [if_neg h, List.mem_singleton]
      exact fun hh => h hh.symm
  | cons c rest ih =>
    intro prev buf
    simp only [splitSentencesGo]
    by_cases hb : isBoundaryChar c = true
    · rw [if_pos hb]
      by_cases h1 : (rest.head?.map isBoundaryChar).getD false = true
      · rw [if_pos h1]
        exact ih _ _
      · rw [if_neg h1]
        by_cases h2 : (c == '.' && (prev.map Char.isDigit).getD false
            && (rest.head?.map Char.isDigit).getD false) = true
        · rw [if_pos h2]
          exact ih _ _
        · rw [if_neg h2]
          intro hmem
          rcases List.mem_cons.mp hmem with hmem | hmem
          · exact trimL_ne_nil (buf ++ [c]) c (by simp) (boundary_not_ws c hb) hmem.symm
          · exact ih _ _ hmem
    · rw [if_neg hb]
      exact ih _ _

/-! ### Helper lemmas: glossary line filtering -/

theorem processGlossLine_eq (glossary upd : List (String × String))
    (line a b : List Char) (hsplit : splitFirstArrow line = some (a, b)) :
    processGlossLine glossary upd line =
      (if trimL a = [] ∨ trimL b = [] then upd
       else if pyLowerL (trimL a) = pyLowerL (trimL b) then upd
       else if dictContains glossary (String.mk (trimL a)) = true then upd
       else if (trimL a).length ≤ 1 then upd
       else if (!(((trimL a).headD 'a').isUpper || !isAsciiL (trimL a))) = true then upd
       else dictSet upd (String.mk (trimL a)) (String.mk (trimL b))) := by
  unfold processGlossLine
  rw [hsplit]

theorem processGlossLine_reject (glossary upd : List (String × String))
    (line a b : List Char) (hsplit : splitFirstArrow line = some (a, b))
    (hrej : lineRejected glossary a b = true) :
    processGlossLine glossary upd line = upd := by
  rw [processGlossLine_eq glossary upd line a b hsplit]
  simp only [lineRejected, Bool.or_eq_true, Bool.and_eq_true,
    decide_eq_true_eq, Bool.not_eq_true'] at hrej
  split_ifs with h1 h2 h3 h4 h5
  · rfl
  · rfl
  · rfl
  · rfl
  · rfl
  exfalso
  rcases hrej with ((((hA | hB) | hC) | hD) | hE) | hF
  · exact h1 (Or.inl hA)
  · exact h1 (Or.inr hB)
  · exact h2 hC
  · exact h3 hD
  · exact h4 hE
  · exact h5 (by rw [hF.2, hF.1]; rfl)

theorem processGlossLine_accept (glossary upd : List (String × String))
    (line a b : List Char) (hsplit : splitFirstArrow line = some (a, b))
    (hacc : lineRejected glossary a b = false) :
    processGlossLine glossary upd line
      = dictSet upd (String.mk (trimL a)) (String.mk (trimL b)) := by
  rw [processGlossLine_eq glossary upd line a b hsplit]
  simp only [lineRejected, Bool.or_eq_false_iff, Bool.and_eq_false_iff,
    decide_eq_false_iff_not] at hacc
  obtain ⟨⟨⟨⟨⟨ha, hb⟩, hlow⟩, hcont⟩, hlen⟩, hup⟩ := hacc
  rw [if_neg (by tauto), if_neg hlow, if_neg (by simp [hcont]), if_neg hlen, if_neg ?_]
  rcases hup with hup | hup
  · simp [hup]
  · have hu : ((trimL a).headD 'a').isUpper = true := by
      cases hh : ((trimL a).headD 'a').isUpper with
      | true => rfl
      | false =>
        rw [hh] at hup
        exact absurd hup (by decide)
    intro hcontra
    rw [hu] at hcontra
    simp at hcontra

/-! ### Claim theorems for sentence splitting, parsing and windowing -/

/-- Claim C6: translate_with_context slides its window with step
max(1, windowSize - overlapSize); the window start offsets are exactly the
multiples of the step below the sentence count, and for 120 sentences with
windowSize 50 and overlapSize 10 there are exactly the three windows at
0, 40 and 80, covering all indices below 120. -/
theorem windowing_C6 (total stepSize : Nat) (h : 1 ≤ stepSize) :
    (∀ s, s ∈ windowStarts total stepSize ↔ ∃ k, s = k * stepSize ∧ s < total) ∧
    windowStarts 120 (max 1 (50 - 10)) = [0, 40, 80] ∧
    (∀ i, i < 120 → ∃ s ∈ windowStarts 120 (max 1 (50 - 10)), s ≤ i ∧ i < s + 50) := by
  refine ⟨fun s => mem_windowStarts total stepSize s h, by decide, by decide⟩

/-- Witness for C6 at total = 120, stepSize = 40. -/
theorem windowing_C6_witness :
    1 ≤ 40 ∧ windowStarts 120 (max 1 (50 - 10)) = [0, 40, 80] :=
  ⟨by decide, (windowing_C6 120 40 (by decide)).2.1⟩

/-- Claim C7: split_sentences follows the boundary scan; consequently the
empty text yields no sentences, no returned element is the empty string,
and the ellipsis example splits into the three expected sentences. -/
theorem splitSentencesSpec_C7 :
    splitSentences "" = [] ∧
    (∀ s : String, "" ∉ splitSentences s) ∧
    splitSentences "I think ... maybe. Yes!" = ["I think ...", "maybe.", "Yes!"] := by
  refine ⟨rfl, ?_, by decide⟩
  intro s hmem
  unfold splitSentences at hmem
  rcases List.mem_map.mp hmem with ⟨l, hl, hmk⟩
  have hnil : l = [] := by
    have := congrArg String.data hmk
    simpa using this
  rw [hnil] at hl
  exact nil_not_mem_splitGo _ _ _ hl

/-- Claim C1 (code bug): with the cancellation flag set before the first
window on the non-empty input ["Hi"], and likewise when cancellation
arrives after one of three single-sentence windows, the final assembly
raises KeyError (modelled as none) instead of returning the partial
results, because the comprehension indexes every position of the input. -/
theorem cancelRaisesKeyError_C1 :
    (translateWithContext cbConst ["Hi"] 50 10 [] (some 0)).1 = none ∧
    (translateWithContext cbConst ["a", "b", "c"] 1 0 [] (some 2)).1 = none := by
  exact ⟨by decide, by decide⟩

/-- Counterexample to claim C4: the same source term Xx passes validation
in two successive windows with different targets Y and Z; the returned
update set maps Xx to Z, the later window's target, so the merge does
overwrite and the first discovered target is not kept. -/
theorem mergeOverwrites_C4_counterexample :
    (parseTranslationAndGlossary (cbConflict 0 [] (taggedSentence 0 "a"))
      [] START_MARK END_MARK).2 = [("Xx", "Y")] ∧
    (parseTranslationAndGlossary (cbConflict 0 [] (taggedSentence 1 "b"))
      [] START_MARK END_MARK).2 = [("Xx", "Z")] ∧
    ((translateWithContext cbConflict ["a", "b"] 1 0 [] none).1.map
      (fun t => t.2.1)) = some [("Xx", "Z")] := by
  exact ⟨by decide, by decide, by decide⟩

/-- Claim C4 as amended: merging a window's updates into the running update
set follows Python dict.update semantics: the merged value at a key is the
last value for that key among the window's updates when present (later
windows overwrite earlier ones), and the previous value otherwise; in the
concrete two-window run the returned set maps Xx to the later target Z. -/
theorem mergeLastWins_C4 (d u : List (String × String)) (k : String) :
    (∀ v, dictGet? u.reverse k = some v → dictGet? (dictUpdate d u) k = some v) ∧
    (dictGet? u.reverse k = none → dictGet? (dictUpdate d u) k = dictGet? d k) ∧
    ((translateWithContext cbConflict ["a", "b"] 1 0 [] none).1.map
      (fun t => dictGet? t.2.1 "Xx")) = some (some "Z") := by
  refine ⟨?_, ?_, by decide⟩
  · intro v hv
    rw [dictGet?_dictUpdate u d k, hv]
  · intro hv
    rw [dictGet?_dictUpdate u d k, hv]

/-- Witness for the amended C4 at a concrete overwrite. -/
theorem mergeLastWins_C4_witness :
    dictGet? ([("Xx", "Z")] : List (String × String)).reverse "Xx" = some "Z" ∧
    dictGet? (dictUpdate [("Xx", "Y")] [("Xx", "Z")]) "Xx" = some "Z" :=
  ⟨by decide, (mergeLastWins_C4 [("Xx", "Y")] [("Xx", "Z")] "Xx").1 "Z" (by decide)⟩

theorem containsSub_eq_false_iff (hay pat : String) :
    containsSub hay pat = false ↔ firstOcc hay.toList pat.toList = none := by
  unfold containsSub
  cases firstOcc hay.toList pat.toList <;> simp

theorem findMarkedL_eq_none_of_absent (text start stop : List Char)
    (h : firstOcc text start = none ∨ firstOcc text stop = none) :
    findMarkedL text start stop = none := by
  unfold findMarkedL
  rcases h with h | h
  · rw [h]
  · cases hv : firstOcc text start with
    | none => rfl
    | some i =>
      simp [firstOccFrom, firstOcc_drop_eq_none text stop _ h]

/-- Claim C8: parse_translation_and_glossary degrades gracefully: when the
translation markers are absent the translation is the whole stripped raw
response, and when the glossary markers are absent the update set is
empty. -/
theorem parseFallback_C8 (text : String) (glossary : List (String × String)) :
    (containsSub text START_MARK = false ∨ containsSub text END_MARK = false →
      (parseTranslationAndGlossary text glossary START_MARK END_MARK).1 = pyStrip text) ∧
    (containsSub text GLOSSARY_START = false ∨ containsSub text GLOSSARY_END = false →
      (parseTranslationAndGlossary text glossary START_MARK END_MARK).2 = []) := by
  constructor
  · intro h
    have hn : findMarkedL text.toList START_MARK.toList END_MARK.toList = none := by
      apply findMarkedL_eq_none_of_absent
      rcases h with h | h
      · exact Or.inl ((containsSub_eq_false_iff text START_MARK).mp h)
      · exact Or.inr ((containsSub_eq_false_iff text END_MARK).mp h)
    show pruneMarked text START_MARK END_MARK = pyStrip text
    unfold pruneMarked pruneMarkedL pyStrip
    rw [hn]
  · intro h
    have hn : findMarkedL text.toList GLOSSARY_START.toList GLOSSARY_END.toList = none := by
      apply findMarkedL_eq_none_of_absent
      rcases h with h | h
      · exact Or.inl ((containsSub_eq_false_iff text GLOSSARY_START).mp h)
      · exact Or.inr ((containsSub_eq_false_iff text GLOSSARY_END).mp h)
    show (parseTranslationAndGlossary text glossary START_MARK END_MARK).2 = []
    unfold parseTranslationAndGlossary
    rw [hn]

/-- Witness for C8 on a response with no markers at all. -/
theorem parseFallback_C8_witness :
    containsSub "plain model response" START_MARK = false ∧
    (parseTranslationAndGlossary "plain model response" [] START_MARK END_MARK).1
      = pyStrip "plain model response" ∧
    (parseTranslationAndGlossary "plain model response" [] START_MARK END_MARK).2 = [] :=
  ⟨by decide,
   (parseFallback_C8 "plain model response" []).1 (Or.inl (by decide)),
   (parseFallback_C8 "plain model response" []).2 (Or.inl (by decide))⟩

/-- Claim C9: a glossary-block line split at its first arrow is excluded
from the updates exactly under the listed rejection rules (empty side,
case-insensitive equality under Unicode case folding, already-known source,
length at most one, ASCII with non-uppercase initial), and otherwise
recorded; the reference response parses to translation Hello with the
single update for the CJK term and no entry for Lord, and the
case-insensitivity is genuine Unicode folding: the Cyrillic line Яx -> яx
is rejected while Яx -> яy is recorded. -/
theorem glossaryLineRules_C9 (glossary upd : List (String × String))
    (line a b : List Char) (hsplit : splitFirstArrow line = some (a, b)) :
    (lineRejected glossary a b = true → processGlossLine glossary upd line = upd) ∧
    (lineRejected glossary a b = false →
      processGlossLine glossary upd line
        = dictSet upd (String.mk (trimL a)) (String.mk (trimL b))) ∧
    parseTranslationAndGlossary
      "<<<START>>>Hello<<<END>>>\n<<<GLOSSARY_START>>>\nLord -> Lord\n英雄 -> hero\n<<<GLOSSARY_END>>>"
      [] START_MARK END_MARK = ("Hello", [("英雄", "hero")]) ∧
    processGlossLine [] [] ("Яx -> яx".toList) = [] ∧
    processGlossLine [] [] ("Яx -> яy".toList) = [("Яx", "яy")] :=
  ⟨processGlossLine_reject glossary upd line a b hsplit,
   processGlossLine_accept glossary upd line a b hsplit,
   by decide, by decide, by decide⟩

/-- Witness for C9 on the rejected line Lord -> Lord. -/
theorem glossaryLineRules_C9_witness :
    splitFirstArrow ("Lord -> Lord".toList) = some ("Lord ".toList, " Lord".toList) ∧
    lineRejected [] ("Lord ".toList) (" Lord".toList) = true ∧
    processGlossLine [] [] ("Lord -> Lord".toList) = [] :=
  ⟨by decide, by decide,
   (glossaryLineRules_C9 [] [] ("Lord -> Lord".toList) ("Lord ".toList) (" Lord".toList)
      (by decide)).1 (by decide)⟩

/-- Claim C10: inside one glossary block an accepted line always stores its
own target for the source term, overwriting any value from an earlier line
of the same block (Python dict assignment), so with two validated lines for
the same source the later line's target is returned. -/
theorem lastLineWins_C10 (glossary upd : List (String × String))
    (line a b : List Char) (hsplit : splitFirstArrow line = some (a, b))
    (hacc : lineRejected glossary a b = false) :
    dictGet? (processGlossLine glossary upd line) (String.mk (trimL a))
      = some (String.mk (trimL b)) ∧
    (parseTranslationAndGlossary
      "<<<GLOSSARY_START>>>\nXx -> A\nXx -> B\n<<<GLOSSARY_END>>>"
      [] START_MARK END_MARK).2 = [("Xx", "B")] := by
  constructor
  · rw [processGlossLine_accept glossary upd line a b hsplit hacc, dictGet?_dictSet]
    simp
  · decide

/-- Witness for C10 on the accepted line Xx -> B over a set already mapping
Xx to A. -/
theorem lastLineWins_C10_witness :
    splitFirstArrow ("Xx -> B".toList) = some ("Xx ".toList, " B".toList) ∧
    lineRejected [] ("Xx ".toList) (" B".toList) = false ∧
    dictGet? (processGlossLine [] [("Xx", "A")] ("Xx -> B".toList)) "Xx" = some "B" := by
  refine ⟨by decide, by decide, ?_⟩
  have h := (lastLineWins_C10 [] [("Xx", "A")] ("Xx -> B".toList)
    ("Xx ".toList) (" B".toList) (by decide) (by decide)).1
  simpa using h

/-! ### Helper lemmas: the run only ever consults the backend at the
caller-supplied glossary -/

theorem ollamaGo_congr (f f' : Backend) (g : Glossary) (cutoff : Option Nat)
    (sm tm : String) (h : ∀ req s, f req g s = f' req g s) :
    ∀ (L : List String) (idx : Nat) (acc : OllamaAcc),
      ollamaGo f g cutoff sm tm L idx acc = ollamaGo f' g cutoff sm tm L idx acc := by
  intro L
  induction L with
  | nil => intro idx acc; rfl
  | cons s rest ih =>
    intro idx acc
    simp only [ollamaGo]
    by_cases hc : cancelSet cutoff acc.checks = true
    · rw [if_pos hc, if_pos hc]
    · rw [if_neg hc, if_neg hc, h acc.reqs s]
      exact ih _ _

theorem processWindow_congr (f f' : Backend) (g : Glossary) (cutoff : Option Nat)
    (sentences : List String) (window : Nat) (h : ∀ req s, f req g s = f' req g s)
    (start : Nat) (st : CtxState) :
    processWindow f g cutoff sentences window start st
      = processWindow f' g cutoff sentences window start st := by
  unfold processWindow
  dsimp only
  rw [ollamaGo_congr f f' g cutoff START_MARK END_MARK h]

theorem contextGo_congr (f f' : Backend) (g : Glossary) (cutoff : Option Nat)
    (sentences : List String) (window : Nat) (h : ∀ req s, f req g s = f' req g s) :
    ∀ (starts : List Nat) (st : CtxState),
      contextGo f g cutoff sentences window starts st
        = contextGo f' g cutoff sentences window starts st := by
  intro starts
  induction starts with
  | nil => intro st; rfl
  | cons start rest ih =>
    intro st
    simp only [contextGo]
    by_cases hc : cancelSet cutoff st.checks = true
    · rw [if_pos hc, if_pos hc]
    · rw [if_neg hc, if_neg hc,
        processWindow_congr f f' g cutoff sentences window h]
      exact ih _

/-- Counterexample to claim C5: a backend that answers "seen" exactly when
the prompt glossary contains the key Xx.  Window 1 discovers the update
Xx -> Y (it is in the returned update set), yet window 2's translation is
"unseen": the prompt the second window sends does not include the earlier
window's validated update, contradicting the claim. -/
theorem glossaryNotPropagated_C5_counterexample :
    cbProbe 0 [("Xx", "Y")] (taggedSentence 1 "b") = "<<<START>>>seen<<<END>>>" ∧
    ((translateWithContext cbProbe ["a", "b"] 1 0 [] none).1.map
      (fun t => (t.1.getD 1 "", dictGet? t.2.1 "Xx"))) = some ("unseen", some "Y") := by
  exact ⟨by decide, by decide⟩

/-- Claim C5 as amended: windows are processed strictly sequentially, but
every window's backend call embeds the caller-supplied glossary unchanged;
the whole run is determined by the backend's behaviour at that original
glossary (earlier windows' validated updates are accumulated for the caller
and are not observable in later windows' prompts). -/
theorem glossaryConstantAcrossWindows_C5 (f f' : Backend) (sentences : List String)
    (window overlap : Nat) (g : Glossary) (cutoff : Option Nat)
    (h : ∀ req s, f req g s = f' req g s) :
    translateWithContext f sentences window overlap g cutoff
      = translateWithContext f' sentences window overlap g cutoff := by
  by_cases he : sentences.isEmpty <;>
    simp [translateWithContext, he, contextGo_congr f f' g cutoff sentences window h]

/-- Witness for the amended C5: two backends agreeing on the empty glossary
but differing elsewhere produce identical runs. -/
theorem glossaryConstantAcrossWindows_C5_witness :
    (∀ req s, cbProbeZz req [] s = cbPlain req [] s) ∧
    translateWithContext cbProbeZz ["a"] 1 0 [] none
      = translateWithContext cbPlain ["a"] 1 0 [] none :=
  ⟨fun _ _ => rfl,
   glossaryConstantAcrossWindows_C5 cbProbeZz cbPlain ["a"] 1 0 [] none (fun _ _ => rfl)⟩

/-! ### Helper lemmas: the result maps are write-once (setdefault) -/

theorem writeResults_preserve (g : Glossary) (s : Nat) (items : List (String × String)) :
    ∀ (idx : Nat) (tr rm : List (Nat × String)) (i : Nat),
      (dictContains tr i = true →
        dictContains (writeResults g s idx items tr rm).1 i = true ∧
        dictGet? (writeResults g s idx items tr rm).1 i = dictGet? tr i) ∧
      (dictContains rm i = true →
        dictContains (writeResults g s idx items tr rm).2 i = true ∧
        dictGet? (writeResults g s idx items tr rm).2 i = dictGet? rm i) := by
  induction items with
  | nil =>
    intro idx tr rm i
    exact ⟨fun h => ⟨h, rfl⟩, fun h => ⟨h, rfl⟩⟩
  | cons p rest ih =>
    intro idx tr rm i
    obtain ⟨o, r⟩ := p
    simp only [writeResults]
    constructor
    · intro hc
      have h1 : dictContains
          (dictSetdefault tr (s + idx)
            (applyGlossary (String.mk (trimL (stripIndexTag o.toList))) g)) i = true := by
        rw [dictContains_setdefault]
        simp [hc]
      have h2 := (ih (idx + 1)
        (dictSetdefault tr (s + idx)
          (applyGlossary (String.mk (trimL (stripIndexTag o.toList))) g))
        (dictSetdefault rm (s + idx) r) i).1 h1
      refine ⟨h2.1, ?_⟩
      rw [h2.2, dictGet?_setdefault_of_contains _ _ _ _ hc]
    · intro hc
      have h1 : dictContains (dictSetdefault rm (s + idx) r) i = true := by
        rw [dictContains_setdefault]
        simp [hc]
      have h2 := (ih (idx + 1)
        (dictSetdefault tr (s + idx)
          (applyGlossary (String.mk (trimL (stripIndexTag o.toList))) g))
        (dictSetdefault rm (s + idx) r) i).2 h1
      refine ⟨h2.1, ?_⟩
      rw [h2.2, dictGet?_setdefault_of_contains _ _ _ _ hc]

theorem processWindow_preserve (f : Backend) (g : Glossary) (cutoff : Option Nat)
    (sentences : List String) (window start : Nat) (st : CtxState) (i : Nat) :
    (dictContains st.translated i = true →
      dictContains (processWindow f g cutoff sentences window start st).translated i = true ∧
      dictGet? (processWindow f g cutoff sentences window start st).translated i
        = dictGet? st.translated i) ∧
    (dictContains st.rawMap i = true →
      dictContains (processWindow f g cutoff sentences window start st).rawMap i = true ∧
      dictGet? (processWindow f g cutoff sentences window start st).rawMap i
        = dictGet? st.rawMap i) := by
  unfold processWindow
  dsimp only
  exact writeResults_preserve g start _ 0 st.translated st.rawMap i

theorem contextGo_preserve (f : Backend) (g : Glossary) (cutoff : Option Nat)
    (sentences : List String) (window : Nat) (starts : List Nat) :
    ∀ (st : CtxState) (i : Nat),
      (dictContains st.translated i = true →
        dictContains (contextGo f g cutoff sentences window starts st).translated i = true ∧
        dictGet? (contextGo f g cutoff sentences window starts st).translated i
          = dictGet? st.translated i) ∧
      (dictContains st.rawMap i = true →
        dictContains (contextGo f g cutoff sentences window starts st).rawMap i = true ∧
        dictGet? (contextGo f g cutoff sentences window starts st).rawMap i
          = dictGet? st.rawMap i) := by
  induction starts with
  | nil =>
    intro st i
    exact ⟨fun h => ⟨h, rfl⟩, fun h => ⟨h, rfl⟩⟩
  | cons start rest ih =>
    intro st i
    simp only [contextGo]
    by_cases hc : cancelSet cutoff st.checks = true
    · rw [if_pos hc]
      exact ⟨fun h => ⟨h, rfl⟩, fun h => ⟨h, rfl⟩⟩
    · rw [if_neg hc]
      have hw := processWindow_preserve f g cutoff sentences window start
        { st with checks := st.checks + 1 } i
      constructor
      · intro h
        have h1 := hw.1 h
        have h2 := (ih _ i).1 h1.1
        exact ⟨h2.1, by rw [h2.2, h1.2]⟩
      · intro h
        have h1 := hw.2 h
        have h2 := (ih _ i).2 h1.1
        exact ⟨h2.1, by rw [h2.2, h1.2]⟩

theorem writeResults_nodup (g : Glossary) (s : Nat) (items : List (String × String)) :
    ∀ (idx : Nat) (tr rm : List (Nat × String)),
      ((dictKeys tr).Nodup → (dictKeys (writeResults g s idx items tr rm).1).Nodup) ∧
      ((dictKeys rm).Nodup → (dictKeys (writeResults g s idx items tr rm).2).Nodup) := by
  induction items with
  | nil =>
    intro idx tr rm
    exact ⟨id, id⟩
  | cons p rest ih =>
    intro idx tr rm
    obtain ⟨o, r⟩ := p
    simp only [writeResults]
    constructor
    · intro h
      exact ((ih (idx + 1) _ _).1 (keys_setdefault_nodup _ _ _ h))
    · intro h
      exact ((ih (idx + 1) _ _).2 (keys_setdefault_nodup _ _ _ h))

theorem contextGo_nodup (f : Backend) (g : Glossary) (cutoff : Option Nat)
    (sentences : List String) (window : Nat) (starts : List Nat) :
    ∀ (st : CtxState),
      ((dictKeys st.translated).Nodup →
        (dictKeys (contextGo f g cutoff sentences window starts st).translated).Nodup) ∧
      ((dictKeys st.rawMap).Nodup →
        (dictKeys (contextGo f g cutoff sentences window starts st).rawMap).Nodup) := by
  induction starts with
  | nil =>
    intro st
    exact ⟨id, id⟩
  | cons start rest ih =>
    intro st
    simp only [contextGo]
    by_cases hc : cancelSet cutoff st.checks = true
    · rw [if_pos hc]
      exact ⟨id, id⟩
    · rw [if_neg hc]
      constructor
      · intro h
        refine (ih _).1 ?_
        show (dictKeys (processWindow f g cutoff sentences window start
          { st with checks := st.checks + 1 }).translated).Nodup
        unfold processWindow
        dsimp only
        exact (writeResults_nodup g start _ 0 _ _).1 h
      · intro h
        refine (ih _).2 ?_
        show (dictKeys (processWindow f g cutoff sentences window start
          { st with checks := st.checks + 1 }).rawMap).Nodup
        unfold processWindow
        dsimp only
        exact (writeResults_nodup g start _ 0 _ _).2 h

theorem contextGo_append_none (f : Backend) (g : Glossary)
    (sentences : List String) (window : Nat) (pre : List Nat) :
    ∀ (post : List Nat) (st : CtxState),
      contextGo f g none sentences window (pre ++ post) st
        = contextGo f g none sentences window post
            (contextGo f g none sentences window pre st) := by
  induction pre with
  | nil => intro post st; rfl
  | cons start rest ih =>
    intro post st
    simp only [List.cons_append, contextGo, cancelSet]
    exact ih post _

/-- Claim C3: the result maps are written through setdefault, so an index
already populated by an earlier window is never changed by later windows
(for both the translation and the raw-response map), the loop decomposes
sequentially, and the key lists stay duplicate-free: each index is
populated exactly once, first write wins. -/
theorem overlapFirstWrite_C3 (f : Backend) (g : Glossary) (sentences : List String)
    (window : Nat) (pre post : List Nat) (st0 : CtxState) (i : Nat)
    (htr : dictContains (contextGo f g none sentences window pre st0).translated i = true)
    (hrm : dictContains (contextGo f g none sentences window pre st0).rawMap i = true)
    (hnd : (dictKeys st0.translated).Nodup) :
    contextGo f g none sentences window (pre ++ post) st0
      = contextGo f g none sentences window post
          (contextGo f g none sentences window pre st0) ∧
    dictGet? (contextGo f g none sentences window (pre ++ post) st0).translated i
      = dictGet? (contextGo f g none sentences window pre st0).translated i ∧
    dictGet? (contextGo f g none sentences window (pre ++ post) st0).rawMap i
      = dictGet? (contextGo f g none sentences window pre st0).rawMap i ∧
    (dictKeys (contextGo f g none sentences window (pre ++ post) st0).translated).Nodup := by
  have hdec := contextGo_append_none f g sentences window pre post st0
  refine ⟨hdec, ?_, ?_, ?_⟩
  · rw [hdec]
    exact ((contextGo_preserve f g none sentences window post _ i).1 htr).2
  · rw [hdec]
    exact ((contextGo_preserve f g none sentences window post _ i).2 hrm).2
  · exact (contextGo_nodup f g none sentences window (pre ++ post) st0).1 hnd

/-- Witness for C3: window size 2 with overlap step 1 over two sentences;
index 1 lies in both windows, the backend answers every request with the
distinct request counter, and the value kept for index 1 is the one the
first window wrote. -/
theorem overlapFirstWrite_C3_witness :
    dictContains (contextGo cbCounter [] none ["a", "b"] 2 [0] initCtxState).translated 1
      = true ∧
    dictContains (contextGo cbCounter [] none ["a", "b"] 2 [0] initCtxState).rawMap 1
      = true ∧
    (dictKeys initCtxState.translated).Nodup ∧
    dictGet? (contextGo cbCounter [] none ["a", "b"] 2 ([0] ++ [1]) initCtxState).translated 1
      = dictGet? (contextGo cbCounter [] none ["a", "b"] 2 [0] initCtxState).translated 1 :=
  ⟨by decide, by decide, by decide,
   (overlapFirstWrite_C3 cbCounter [] ["a", "b"] 2 [0] [1] initCtxState 1
      (by decide) (by decide) (by decide)).2.1⟩

/-! ### Helper lemmas: characterization of one window at a deterministic
backend without cancellation -/

theorem slice_getD (sentences : List String) (s w j : Nat)
    (hj : j < ((sentences.drop s).take w).length) :
    ((sentences.drop s).take w).getD j "" = sentences.getD (s + j) "" := by
  rw [List.length_take, List.length_drop] at hj
  rw [List.getD_eq_getElem?_getD, List.getD_eq_getElem?_getD, List.getElem?_take,
    if_pos (by omega : j < w), List.getElem?_drop]

theorem ollamaGo_none_char (f0 : Glossary → String → String) (g : Glossary)
    (L : List String) :
    ∀ (idx : Nat) (acc : OllamaAcc),
      ollamaGo (liftBackend f0) g none START_MARK END_MARK L idx acc =
        { outputs := acc.outputs ++ L.map (outFn f0 g)
          newTerms := L.foldl
            (fun d w => dictUpdate d (parseTranslationAndGlossary (f0 g w) g
              START_MARK END_MARK).2) acc.newTerms
          rawOutputs := acc.rawOutputs ++ L.map (fun w => f0 g w)
          callLog := acc.callLog ++ tagLog (outFn f0 g) idx L
          checks := acc.checks + L.length
          reqs := acc.reqs + L.length } := by
  induction L with
  | nil =>
    intro idx acc
    simp [ollamaGo, tagLog]
  | cons w rest ih =>
    intro idx acc
    have hc : cancelSet none acc.checks = false := rfl
    simp only [ollamaGo, hc, Bool.false_eq_true, if_false, liftBackend]
    rw [ih]
    simp only [tagLog, outFn, List.map_cons, List.length_cons, List.foldl_cons]
    congr 1 <;> first | simp | omega

theorem tagLog_enumTag (f0 : Glossary → String → String) (g : Glossary)
    (sentences : List String) (s : Nat) :
    ∀ (slice : List String) (k : Nat),
      (∀ j, j < slice.length → slice.getD j "" = sentences.getD (s + k + j) "") →
      (tagLog (outFn f0 g) k (enumTagGo s k slice)).map (fun p => (s + p.1, p.2))
        = (List.range slice.length).map
            (fun j => (s + k + j, detCleaned f0 g sentences (s + k + j))) := by
  intro slice
  induction slice with
  | nil => intro k _; rfl
  | cons t rest ih =>
    intro k hrel
    have h0 : t = sentences.getD (s + k) "" := by
      have := hrel 0 (by simp)
      simpa using this
    have hrel' : ∀ j, j < rest.length → rest.getD j "" = sentences.getD (s + (k + 1) + j) "" := by
      intro j hj
      have := hrel (j + 1) (by simp; omega)
      rw [List.getD_cons_succ] at this
      rw [this]
      congr 1
      omega
    simp only [enumTagGo, tagLog, List.map_cons, List.length_cons,
      List.range_succ_eq_map, List.map_map]
    congr 1
    · show (s + k, outFn f0 g (taggedSentence (s + k) t))
        = (s + k + 0, detCleaned f0 g sentences (s + k + 0))
      rw [h0]
      rfl
    · rw [ih (k + 1) hrel']
      apply List.map_congr_left
      intro j _
      show (s + (k + 1) + j, detCleaned f0 g sentences (s + (k + 1) + j))
        = (s + k + (j + 1), detCleaned f0 g sentences (s + k + (j + 1)))
      rw [show s + (k + 1) + j = s + k + (j + 1) from by omega]

theorem window_master (f0 : Glossary → String → String) (g : Glossary)
    (sentences : List String) (s : Nat) :
    ∀ (slice : List String) (k : Nat) (tr rm : List (Nat × String)),
      (∀ j, j < slice.length → slice.getD j "" = sentences.getD (s + k + j) "") →
      writeResults g s k
          (((enumTagGo s k slice).map (outFn f0 g)).zip
            ((enumTagGo s k slice).map (fun w => f0 g w))) tr rm
        = ((List.range slice.length).foldl
             (fun d j => dictSetdefault d (s + k + j) (detFinal f0 g sentences (s + k + j))) tr,
           (List.range slice.length).foldl
             (fun d j => dictSetdefault d (s + k + j) (detRaw f0 g sentences (s + k + j))) rm) := by
  intro slice
  induction slice with
  | nil => intro k tr rm _; rfl
  | cons t rest ih =>
    intro k tr rm hrel
    have h0 : t = sentences.getD (s + k) "" := by
      have := hrel 0 (by simp)
      simpa using this
    have hrel' : ∀ j, j < rest.length → rest.getD j "" = sentences.getD (s + (k + 1) + j) "" := by
      intro j hj
      have := hrel (j + 1) (by simp; omega)
      rw [List.getD_cons_succ] at this
      rw [this]
      congr 1
      omega
    have hzip : ((enumTagGo s k (t :: rest)).map (outFn f0 g)).zip
        ((enumTagGo s k (t :: rest)).map (fun w => f0 g w))
        = (outFn f0 g (taggedSentence (s + k) t), f0 g (taggedSentence (s + k) t)) ::
          ((enumTagGo s (k + 1) rest).map (outFn f0 g)).zip
            ((enumTagGo s (k + 1) rest).map (fun w => f0 g w)) := by
      simp [enumTagGo]
    rw [hzip]
    simp only [writeResults]
    rw [ih (k + 1) _ _ hrel']
    have hcl : applyGlossary
        (String.mk (trimL (stripIndexTag (outFn f0 g (taggedSentence (s + k) t)).toList))) g
        = detFinal f0 g sentences (s + k) := by
      rw [h0]
      rfl
    have hrw : f0 g (taggedSentence (s + k) t) = detRaw f0 g sentences (s + k) := by
      rw [h0]
      rfl
    rw [hcl, hrw]
    simp only [List.length_cons, List.range_succ_eq_map, List.foldl_cons,
      List.foldl_map, Prod.mk.injEq]
    constructor
    · rw [show s + k + 0 = s + k from by omega]
      apply List.foldl_ext
      intro d j _
      show dictSetdefault d (s + (k + 1) + j) (detFinal f0 g sentences (s + (k + 1) + j))
        = dictSetdefault d (s + k + (j + 1)) (detFinal f0 g sentences (s + k + (j + 1)))
      rw [show s + (k + 1) + j = s + k + (j + 1) from by omega]
    · rw [show s + k + 0 = s + k from by omega]
      apply List.foldl_ext
      intro d j _
      show dictSetdefault d (s + (k + 1) + j) (detRaw f0 g sentences (s + (k + 1) + j))
        = dictSetdefault d (s + k + (j + 1)) (detRaw f0 g sentences (s + k + (j + 1)))
      rw [show s + (k + 1) + j = s + k + (j + 1) from by omega]

theorem foldl_setdefault_mem (key : Nat → Nat) (val : Nat → String) (js : List Nat) :
    ∀ (d : List (Nat × String)) (p : Nat × String),
      p ∈ js.foldl (fun d j => dictSetdefault d (key j) (val j)) d →
      p ∈ d ∨ ∃ j ∈ js, p = (key j, val j) := by
  induction js with
  | nil =>
    intro d p h
    exact Or.inl h
  | cons j rest ih =>
    intro d p h
    simp only [List.foldl_cons] at h
    rcases ih _ p h with h | ⟨j', hj', hp⟩
    · rcases mem_setdefault _ _ _ _ h with h | h
      · exact Or.inl h
      · exact Or.inr ⟨j, by simp, h⟩
    · exact Or.inr ⟨j', by simp [hj'], hp⟩

theorem foldl_setdefault_contains (key : Nat → Nat) (val : Nat → String) (js : List Nat) :
    ∀ (d : List (Nat × String)) (i : Nat),
      dictContains (js.foldl (fun d j => dictSetdefault d (key j) (val j)) d) i = true
        ↔ dictContains d i = true ∨ ∃ j ∈ js, i = key j := by
  induction js with
  | nil =>
    intro d i
    simp
  | cons j rest ih =>
    intro d i
    rw [List.foldl_cons, ih, dictContains_setdefault]
    constructor
    · rintro (h | ⟨j', hj', hp⟩)
      · by_cases hd : dictContains d i = true
        · exact Or.inl hd
        · have hkey : decide (i = key j) = true := by
            cases hb : dictContains d i with
            | true => exact absurd hb hd
            | false =>
              rw [hb] at h
              simpa using h
          exact Or.inr ⟨j, by simp, of_decide_eq_true hkey⟩
      · exact Or.inr ⟨j', by simp [hj'], hp⟩
    · rintro (h | ⟨j', hj', hp⟩)
      · exact Or.inl (by simp [h])
      · rcases List.mem_cons.mp hj' with h | hj''
        · subst h
          exact Or.inl (by simp [hp])

        · exact Or.inr ⟨j', hj'', hp⟩

theorem covered_iff (window n s i : Nat) :
    (∃ j ∈ List.range (min window (n - s)), i = s + j)
      ↔ (s ≤ i ∧ i < s + window ∧ i < n) := by
  simp only [List.mem_range]
  constructor
  · rintro ⟨j, hj, rfl⟩
    omega
  · intro h
    exact ⟨i - s, by omega, by omega⟩

theorem dictGet?_eq_of_pointwise (d : List (Nat × String)) (i : Nat) (v : String)
    (hc : dictContains d i = true) (hp : ∀ p ∈ d, p.1 = i → p.2 = v) :
    dictGet? d i = some v := by
  induction d with
  | nil => simp [dictContains] at hc
  | cons p rest ih =>
    by_cases h : p.1 = i
    · simp only [dictGet?, if_pos h]
      rw [hp p (by simp) h]
    · simp only [dictGet?, if_neg h]
      apply ih
      · simpa [dictContains, h] using hc
      · intro q hq hqi
        exact hp q (by simp [hq]) hqi

theorem getD_map_range (f : Nat → String) (n i : Nat) (hi : i < n) :
    (((List.range n).map f).getD i "") = f i := by
  rw [List.getD_eq_getElem?_getD, List.getElem?_map, List.getElem?_range hi]
  rfl

theorem windowStarts_zero (stepSize : Nat) (h : 1 ≤ stepSize) :
    windowStarts 0 stepSize = [] := by
  unfold windowStarts
  rw [Nat.zero_add, Nat.div_eq_of_lt (by omega)]
  rfl

theorem processWindow_none_char (f0 : Glossary → String → String) (g : Glossary)
    (sentences : List String) (window s : Nat) (st : CtxState) :
    (processWindow (liftBackend f0) g none sentences window s st).translated
      = (List.range (min window (sentences.length - s))).foldl
          (fun d j => dictSetdefault d (s + j) (detFinal f0 g sentences (s + j)))
          st.translated ∧
    (processWindow (liftBackend f0) g none sentences window s st).rawMap
      = (List.range (min window (sentences.length - s))).foldl
          (fun d j => dictSetdefault d (s + j) (detRaw f0 g sentences (s + j)))
          st.rawMap ∧
    (processWindow (liftBackend f0) g none sentences window s st).tokenLog
      = st.tokenLog ++ (List.range (min window (sentences.length - s))).map
          (fun j => (s + j, detCleaned f0 g sentences (s + j))) := by
  have hrel : ∀ j, j < ((sentences.drop s).take window).length →
      ((sentences.drop s).take window).getD j "" = sentences.getD (s + 0 + j) "" := by
    intro j hj
    rw [slice_getD sentences s window j hj]
    rw [show s + 0 + j = s + j from by omega]
  unfold processWindow
  dsimp only
  rw [ollamaGo_none_char]
  dsimp only
  simp only [List.nil_append]
  rw [window_master f0 g sentences s ((sentences.drop s).take window) 0
    st.translated st.rawMap hrel]
  rw [tagLog_enumTag f0 g sentences s ((sentences.drop s).take window) 0 hrel]
  simp only [List.length_take, List.length_drop, Nat.add_zero]
  refine ⟨?_, ?_, ?_⟩ <;> trivial

theorem contextGo_none_inv (f0 : Glossary → String → String) (g : Glossary)
    (sentences : List String) (window : Nat) (starts : List Nat) :
    ∀ (P : List Nat) (st : CtxState),
      (∀ p ∈ st.translated, p.2 = detFinal f0 g sentences p.1) →
      (∀ p ∈ st.rawMap, p.2 = detRaw f0 g sentences p.1) →
      (∀ i, dictContains st.translated i = true
        ↔ ∃ s ∈ P, s ≤ i ∧ i < s + window ∧ i < sentences.length) →
      (∀ i, dictContains st.rawMap i = true
        ↔ ∃ s ∈ P, s ≤ i ∧ i < s + window ∧ i < sentences.length) →
      (st.tokenLog = P.flatMap (fun s =>
        (List.range (min window (sentences.length - s))).map
          (fun j => (s + j, detCleaned f0 g sentences (s + j))))) →
      (∀ p ∈ (contextGo (liftBackend f0) g none sentences window starts st).translated,
        p.2 = detFinal f0 g sentences p.1) ∧
      (∀ p ∈ (contextGo (liftBackend f0) g none sentences window starts st).rawMap,
        p.2 = detRaw f0 g sentences p.1) ∧
      (∀ i, dictContains
          (contextGo (liftBackend f0) g none sentences window starts st).translated i = true
        ↔ ∃ s ∈ P ++ starts, s ≤ i ∧ i < s + window ∧ i < sentences.length) ∧
      (∀ i, dictContains
          (contextGo (liftBackend f0) g none sentences window starts st).rawMap i = true
        ↔ ∃ s ∈ P ++ starts, s ≤ i ∧ i < s + window ∧ i < sentences.length) ∧
      ((contextGo (liftBackend f0) g none sentences window starts st).tokenLog
        = (P ++ starts).flatMap (fun s =>
            (List.range (min window (sentences.length - s))).map
              (fun j => (s + j, detCleaned f0 g sentences (s + j))))) := by
  induction starts with
  | nil =>
    intro P st htr hrm ktr krm hlog
    rw [List.append_nil]
    exact ⟨htr, hrm, ktr, krm, hlog⟩
  | cons s rest ih =>
    intro P st htr hrm ktr krm hlog
    have hc : cancelSet none st.checks = false := rfl
    simp only [contextGo, hc, Bool.false_eq_true, if_false]
    have hchar := processWindow_none_char f0 g sentences window s
      { st with checks := st.checks + 1 }
    obtain ⟨h1, h2, h3⟩ := hchar
    have htr2 : ∀ p ∈ (processWindow (liftBackend f0) g none sentences window s
        { st with checks := st.checks + 1 }).translated,
        p.2 = detFinal f0 g sentences p.1 := by
      intro p hp
      rw [h1] at hp
      rcases foldl_setdefault_mem _ _ _ _ p hp with hp | ⟨j, _, hp⟩
      · exact htr p hp
      · rw [hp]
    have hrm2 : ∀ p ∈ (processWindow (liftBackend f0) g none sentences window s
        { st with checks := st.checks + 1 }).rawMap,
        p.2 = detRaw f0 g sentences p.1 := by
      intro p hp
      rw [h2] at hp
      rcases foldl_setdefault_mem _ _ _ _ p hp with hp | ⟨j, _, hp⟩
      · exact hrm p hp
      · rw [hp]
    have ktr2 : ∀ i, dictContains (processWindow (liftBackend f0) g none sentences window s
        { st with checks := st.checks + 1 }).translated i = true
        ↔ ∃ s' ∈ P ++ [s], s' ≤ i ∧ i < s' + window ∧ i < sentences.length := by
      intro i
      rw [h1, foldl_setdefault_contains, ktr i]
      rw [covered_iff window sentences.length s i]
      constructor
      · rintro (⟨s', hs', hcond⟩ | hcond)
        · exact ⟨s', by simp [hs'], hcond⟩
        · exact ⟨s, by simp, hcond⟩
      · rintro ⟨s', hs', hcond⟩
        rcases List.mem_append.mp hs' with hs' | hs'
        · exact Or.inl ⟨s', hs', hcond⟩
        · have : s' = s := by simpa using hs'
          subst this
          exact Or.inr hcond
    have krm2 : ∀ i, dictContains (processWindow (liftBackend f0) g none sentences window s
        { st with checks := st.checks + 1 }).rawMap i = true
        ↔ ∃ s' ∈ P ++ [s], s' ≤ i ∧ i < s' + window ∧ i < sentences.length := by
      intro i
      rw [h2, foldl_setdefault_contains, krm i]
      rw [covered_iff window sentences.length s i]
      constructor
      · rintro (⟨s', hs', hcond⟩ | hcond)
        · exact ⟨s', by simp [hs'], hcond⟩
        · exact ⟨s, by simp, hcond⟩
      · rintro ⟨s', hs', hcond⟩
        rcases List.mem_append.mp hs' with hs' | hs'
        · exact Or.inl ⟨s', hs', hcond⟩
        · have : s' = s := by simpa using hs'
          subst this
          exact Or.inr hcond
    have hlog2 : (processWindow (liftBackend f0) g none sentences window s
        { st with checks := st.checks + 1 }).tokenLog
        = (P ++ [s]).flatMap (fun s' =>
            (List.range (min window (sentences.length - s'))).map
              (fun j => (s' + j, detCleaned f0 g sentences (s' + j)))) := by
      rw [h3]
      show st.tokenLog ++ _ = _
      rw [hlog]
      simp
    have := ih (P ++ [s]) _ htr2 hrm2 ktr2 krm2 hlog2
    simpa [List.append_assoc] using this

/-- Claim C2: without cancellation, for every sentence list, windowSize at
least 1, overlapSize below windowSize and any backend giving one response
per prompt sentence, the returned translation and raw arrays have the input
length, entry i is the backend's response for the index-tagged sentence i
with the tag stripped and the glossary applied (raw entry i is the raw
response), and the token-callback trace carries absolute indices: window
base plus local window index. -/
theorem contextAlignment_C2 (f0 : Glossary → String → String) (sentences : List String)
    (window overlap : Nat) (g : Glossary) (hw : 1 ≤ window) (ho : overlap < window) :
    ∃ ts upd rs,
      (translateWithContext (liftBackend f0) sentences window overlap g none).1
        = some (ts, upd, rs) ∧
      ts.length = sentences.length ∧
      rs.length = sentences.length ∧
      (∀ i, i < sentences.length →
        ts.getD i "" = detFinal f0 g sentences i ∧
        rs.getD i "" = detRaw f0 g sentences i) ∧
      (translateWithContext (liftBackend f0) sentences window overlap g none).2
        = (windowStarts sentences.length (max 1 (window - overlap))).flatMap
            (fun s => (List.range (min window (sentences.length - s))).map
              (fun j => (s + j, detCleaned f0 g sentences (s + j)))) := by
  by_cases he : sentences.isEmpty = true
  · have hnil : sentences = [] := by
      cases sentences with
      | nil => rfl
      | cons a l => simp [List.isEmpty] at he
    subst hnil
    refine ⟨[], [], [], rfl, rfl, rfl, ?_, ?_⟩
    · intro i hi
      simp at hi
    · simp only [List.length_nil]
      rw [windowStarts_zero _ (le_max_left _ _)]
      rfl
  · have hinv := contextGo_none_inv f0 g sentences window
      (windowStarts sentences.length (max 1 (window - overlap))) [] initCtxState
      (by simp [initCtxState]) (by simp [initCtxState])
      (by simp [initCtxState, dictContains])
      (by simp [initCtxState, dictContains])
      (by simp [initCtxState])
    obtain ⟨htr, hrm, ktr, krm, hlog⟩ := hinv
    have hget : ∀ i, i < sentences.length →
        dictGet? (contextGo (liftBackend f0) g none sentences window
          (windowStarts sentences.length (max 1 (window - overlap)))
          initCtxState).translated i = some (detFinal f0 g sentences i) := by
      intro i hi
      apply dictGet?_eq_of_pointwise
      · rw [ktr i]
        obtain ⟨s, hs, h1, h2⟩ := windowStarts_cover sentences.length window overlap i ho hi
        exact ⟨s, by simpa using hs, h1, h2, hi⟩
      · intro p hp hpi
        rw [htr p hp, hpi]
    have hgetr : ∀ i, i < sentences.length →
        dictGet? (contextGo (liftBackend f0) g none sentences window
          (windowStarts sentences.length (max 1 (window - overlap)))
          initCtxState).rawMap i = some (detRaw f0 g sentences i) := by
      intro i hi
      apply dictGet?_eq_of_pointwise
      · rw [krm i]
        obtain ⟨s, hs, h1, h2⟩ := windowStarts_cover sentences.length window overlap i ho hi
        exact ⟨s, by simpa using hs, h1, h2, hi⟩
      · intro p hp hpi
        rw [hrm p hp, hpi]
    have hb1 : buildList (contextGo (liftBackend f0) g none sentences window
        (windowStarts sentences.length (max 1 (window - overlap)))
        initCtxState).translated (List.range sentences.length)
        = some ((List.range sentences.length).map (detFinal f0 g sentences)) :=
      buildList_eq_some _ _ _ (fun i hi => hget i (List.mem_range.mp hi))
    have hb2 : buildList (contextGo (liftBackend f0) g none sentences window
        (windowStarts sentences.length (max 1 (window - overlap)))
        initCtxState).rawMap (List.range sentences.length)
        = some ((List.range sentences.length).map (detRaw f0 g sentences)) :=
      buildList_eq_some _ _ _ (fun i hi => hgetr i (List.mem_range.mp hi))
    refine ⟨(List.range sentences.length).map (detFinal f0 g sentences),
      (contextGo (liftBackend f0) g none sentences window
        (windowStarts sentences.length (max 1 (window - overlap)))
        initCtxState).allUpdates,
      (List.range sentences.length).map (detRaw f0 g sentences), ?_, by simp, by simp,
      ?_, ?_⟩
    · unfold translateWithContext
      rw [if_neg he]
      dsimp only
      rw [hb1]
      dsimp only
      rw [hb2]
    · intro i hi
      exact ⟨getD_map_range _ _ _ hi, getD_map_range _ _ _ hi⟩
    · unfold translateWithContext
      rw [if_neg he]
      dsimp only
      rw [hb1]
      dsimp only
      rw [hb2]
      dsimp only
      rw [hlog]
      simp

/-- Witness for C2: three sentences, window 2, overlap 1, a fixed
well-formed backend response. -/
theorem contextAlignment_C2_witness :
    (1 ≤ 2 ∧ 1 < 2) ∧
    (∃ ts upd rs,
      (translateWithContext (liftBackend cbDet) ["a", "b", "c"] 2 1 [] none).1
        = some (ts, upd, rs) ∧
      ts.length = (["a", "b", "c"] : List String).length ∧
      rs.length = (["a", "b", "c"] : List String).length ∧
      (∀ i, i < (["a", "b", "c"] : List String).length →
        ts.getD i "" = detFinal cbDet [] ["a", "b", "c"] i ∧
        rs.getD i "" = detRaw cbDet [] ["a", "b", "c"] i) ∧
      (translateWithContext (liftBackend cbDet) ["a", "b", "c"] 2 1 [] none).2
        = (windowStarts (["a", "b", "c"] : List String).length (max 1 (2 - 1))).flatMap
            (fun s => (List.range (min 2 ((["a", "b", "c"] : List String).length - s))).map
              (fun j => (s + j, detCleaned cbDet [] ["a", "b", "c"] (s + j))))) :=
  ⟨⟨by decide, by decide⟩,
   contextAlignment_C2 cbDet ["a", "b", "c"] 2 1 [] (by decide) (by decide)⟩

end BookLocalizer
